import Mathlib

/-!
Verification of the antipasta classification / aggregation / rollup engine.

Paths are modelled as lists of components (`Dir := List String`); a file path
is a directory plus a file name and a (lowercased) extension.  Numeric metric
values are rationals.  External collaborators (the `pathspec` glob matcher,
Python's `float()` parser, the filesystem `exists` test) are parameters of the
embedded functions.  Definitions whose doc comment starts with
`Modelled from the spec:` correspond to code of the repository that is not
present under `src/`; everything else is translated from the source files.
-/

namespace Antipasta

/-- Directory path, as its list of components from the root. -/
abbrev Dir := List String

/-- A file path: parent directory components, file name, and the lowercased
extension as Python's `Path.suffix.lower()` would return it (the string
manipulation of `pathlib` is treated as external and the suffix is carried
as a field). -/
structure PyPath where
  dir : Dir
  name : String
  ext : String
deriving DecidableEq, Repr

/-- Comparison operators for metric thresholds
(`ComparisonOperator` in `code_cop/core/config.py`). -/
inductive ComparisonOperator where
  | lt | le | gt | ge | eq | ne
deriving DecidableEq, Repr

/-- One measurement produced by an adapter (`MetricResult`); the metric type
is carried as its string value. -/
structure MetricResult where
  file_path : PyPath
  metric_type : String
  value : Rat
  line_number : Option Nat := none
  function_name : Option String := none
deriving DecidableEq, Repr

/-- Configuration for a single metric (`MetricConfig` in
`code_cop/core/config.py`); the human-readable message generation of
`Violation` is display-only and omitted. -/
structure MetricConfig where
  type : String
  threshold : Rat
  comparison : ComparisonOperator := .le
  enabled : Bool := true
deriving DecidableEq, Repr

/-- A metric violation (`Violation` in `code_cop/core/violations.py`). -/
structure Violation where
  file_path : PyPath
  metric_type : String
  value : Rat
  threshold : Rat
  comparison : ComparisonOperator
  line_number : Option Nat := none
  function_name : Option String := none
deriving DecidableEq, Repr

/-- `check_metric_violation` from `src/antipasta/core/violations.py`
(lines 106-148): returns `none` for a disabled rule, otherwise evaluates the
operator with "threshold is the allowed boundary" semantics. -/
def check_metric_violation (metric : MetricResult) (config : MetricConfig) :
    Option Violation :=
  if !config.enabled then none
  else
    let value := metric.value
    let threshold := config.threshold
    let violated : Bool :=
      match config.comparison with
      | .lt => decide (value ≥ threshold)
      | .le => decide (value > threshold)
      | .gt => decide (value ≤ threshold)
      | .ge => decide (value < threshold)
      | .eq => decide (value ≠ threshold)
      | .ne => decide (value = threshold)
    if violated then
      some { file_path := metric.file_path
             metric_type := metric.metric_type
             value := value
             threshold := threshold
             comparison := config.comparison
             line_number := metric.line_number
             function_name := metric.function_name }
    else none

/-- Supported languages (`Language` in `code_cop/core/detector.py`). -/
inductive Language where
  | python | javascript | typescript | unknown
deriving DecidableEq, Repr

/-- The `.value` string of a `Language` member. -/
def Language.value : Language → String
  | .python => "python"
  | .javascript => "javascript"
  | .typescript => "typescript"
  | .unknown => "unknown"

/-- Extension-to-language table (`EXTENSION_MAP` in
`code_cop/core/detector.py`). -/
def extension_map : List (String × Language) :=
  [ (".py", .python), (".pyw", .python), (".pyi", .python),
    (".ipynb", .python),
    (".js", .javascript), (".mjs", .javascript), (".cjs", .javascript),
    (".jsx", .javascript),
    (".ts", .typescript), (".tsx", .typescript), (".mts", .typescript),
    (".cts", .typescript) ]

/-- The glob matcher built by `pathspec.PathSpec.from_lines("gitwildmatch", ·)`
together with the relative-path conversion of `should_ignore`; `pathspec` is
an external library, so matching a pattern list against a path is an
uninterpreted parameter. -/
abbrev Matcher := List String → PyPath → Bool

/-- `LanguageDetector` state (`code_cop/core/detector.py`): the ignore
pattern list (gitignore lines already merged in by `add_gitignore`). -/
structure LanguageDetector where
  ignore_patterns : List String
deriving DecidableEq, Repr

/-- `LanguageDetector.should_ignore`: with no patterns nothing is ignored,
otherwise the compiled pathspec is consulted. -/
def should_ignore (det : LanguageDetector) (m : Matcher) (p : PyPath) : Bool :=
  if det.ignore_patterns = [] then false
  else m det.ignore_patterns p

/-- `LanguageDetector.detect_language`: `none` for an ignored file, otherwise
the extension-derived language, defaulting to `unknown`. -/
def detect_language (det : LanguageDetector) (m : Matcher) (p : PyPath) :
    Option Language :=
  if should_ignore det m p then none
  else some (((extension_map.find? (fun e => e.1 = p.ext)).map (·.2)).getD .unknown)

/-- Lookup in the language-grouping dictionary (first entry with the key). -/
def lookupG : List (Language × List PyPath) → Language → Option (List PyPath)
  | [], _ => none
  | g :: gs, lang => if g.1 = lang then some g.2 else lookupG gs lang

/-- One step of the `group_by_language` loop: append the path to the
language's group, creating the group at the end on first appearance
(`defaultdict(list)` insertion-order semantics). -/
def addToGroups (groups : List (Language × List PyPath)) (lang : Language)
    (p : PyPath) : List (Language × List PyPath) :=
  if (lookupG groups lang).isSome then
    groups.map (fun g => if g.1 = lang then (g.1, g.2 ++ [p]) else g)
  else groups ++ [(lang, [p])]

/-- The per-path step of `group_by_language`: ignored (`None`) and `unknown`
files are discarded. -/
def group_step (det : LanguageDetector) (m : Matcher)
    (groups : List (Language × List PyPath)) (p : PyPath) :
    List (Language × List PyPath) :=
  match detect_language det m p with
  | some lang => if lang ≠ .unknown then addToGroups groups lang p else groups
  | none => groups

/-- `LanguageDetector.group_by_language`: partition the path list by detected
language. -/
def group_by_language (det : LanguageDetector) (m : Matcher)
    (file_paths : List PyPath) : List (Language × List PyPath) :=
  file_paths.foldl (group_step det m) []

/-- Adapter output (`FileMetrics` in `code_cop/core/metrics`): measurements
plus an optional error string. -/
structure FileMetrics where
  metrics : List MetricResult
  error : Option String := none
deriving DecidableEq, Repr

/-- A measurement adapter (runner): availability flag and the `analyze`
call. -/
structure Runner where
  available : Bool
  analyze : PyPath → FileMetrics

/-- Modelled from the spec: `RadonRunner.analyze`
(`code_cop/runners/python/radon.py` is not under `src/`).  Per §4.3 and §4.5
of the spec, an adapter whose measurement step throws converts the exception
into a `FileMetrics` with the error string set and empty measurements instead
of propagating it; the raw, possibly-throwing measurement step is the
`Except`-valued parameter. -/
def runner_of_raw (raw : PyPath → Except String FileMetrics) (p : PyPath) :
    FileMetrics :=
  match raw p with
  | .error msg => { metrics := [], error := some msg }
  | .ok fm => fm

/-- Per-file report (`FileReport` in `code_cop/core/violations.py`), with an
extra `rid` field standing for Python object identity. -/
structure FileReport where
  rid : Nat
  file_path : PyPath
  language : String
  metrics : List MetricResult
  violations : List Violation
  error : Option String := none
deriving DecidableEq, Repr

/-- Truthiness of Python's `Optional[str]`: `None` and the empty string are
falsy. -/
def errTruthy : Option String → Bool
  | none => false
  | some s => s ≠ ""

/-- Default threshold values (`DefaultsConfig` in `code_cop/core/config.py`). -/
structure DefaultsConfig where
  max_cyclomatic_complexity : Rat := 10
  min_maintainability_index : Rat := 50
  max_halstead_volume : Rat := 1000
  max_halstead_difficulty : Rat := 10
  max_halstead_effort : Rat := 10000
  max_cognitive_complexity : Rat := 15
deriving DecidableEq, Repr

/-- Per-language configuration (`LanguageConfig`). -/
structure LanguageConfig where
  name : String
  extensions : List String := []
  metrics : List MetricConfig
deriving DecidableEq, Repr

/-- Main configuration model (`CodeCopConfig`). -/
structure CodeCopConfig where
  defaults : DefaultsConfig := {}
  languages : List LanguageConfig := []
  ignore_patterns : List String := []
  use_gitignore : Bool := true
deriving DecidableEq, Repr

/-- `CodeCopConfig.get_language_config`: first language entry whose lowercased
name equals the lowercased query. -/
def get_language_config (config : CodeCopConfig) (language : String) :
    Option LanguageConfig :=
  config.languages.find? (fun lc => lc.name.toLower = language.toLower)

/-- `MetricAggregator._create_default_language_config`: for Python, one rule
per default metric; empty rule list for other languages. -/
def create_default_language_config (config : CodeCopConfig)
    (language : Language) : LanguageConfig :=
  let default_metrics : List MetricConfig :=
    if language = .python then
      [ { type := "cyclomatic_complexity"
          threshold := config.defaults.max_cyclomatic_complexity
          comparison := .le },
        { type := "maintainability_index"
          threshold := config.defaults.min_maintainability_index
          comparison := .ge },
        { type := "halstead_volume"
          threshold := config.defaults.max_halstead_volume
          comparison := .le },
        { type := "halstead_difficulty"
          threshold := config.defaults.max_halstead_difficulty
          comparison := .le },
        { type := "halstead_effort"
          threshold := config.defaults.max_halstead_effort
          comparison := .le } ]
    else []
  { name := language.value, metrics := default_metrics }

/-- `MetricAggregator._check_violations`: build the type-to-config map
(later entries win, as in a dict comprehension) and check each measurement
that has a matching configuration. -/
def check_violations (fm : FileMetrics) (metric_configs : List MetricConfig) :
    List Violation :=
  fm.metrics.filterMap
    (fun metric =>
      match metric_configs.reverse.find? (fun c => c.type = metric.metric_type) with
      | none => none
      | some config => check_metric_violation metric config)

/-- `MetricAggregator._analyze_file`: run the adapter; violations are checked
only when the returned error is falsy (`if not file_metrics.error`); the
`rid` identity tag is threaded through from the caller. -/
def analyze_file (rid : Nat) (file_path : PyPath) (language : Language)
    (runner : Runner) (metric_configs : List MetricConfig) : FileReport :=
  let file_metrics := runner.analyze file_path
  let violations :=
    if errTruthy file_metrics.error then []
    else check_violations file_metrics metric_configs
  { rid := rid
    file_path := file_path
    language := language.value
    metrics := file_metrics.metrics
    violations := violations
    error := file_metrics.error }

/-- The reports contributed by one language group of `analyze_files`: skipped
when no runner is registered or the runner is unavailable, otherwise one
report per file in group order.  Report identities are fresh (derived from
the file's position), mirroring Python object allocation. -/
def groupReports (runners : Language → Option Runner) (config : CodeCopConfig)
    (g : Language × List PyPath) : List FileReport :=
  match runners g.1 with
  | none => []
  | some runner =>
    if runner.available then
      let lang_config :=
        (get_language_config config g.1.value).getD
          (create_default_language_config config g.1)
      (g.2.enum).map (fun fi => analyze_file fi.1 fi.2 g.1 runner lang_config.metrics)
    else []

/-- `MetricAggregator.analyze_files` (`code_cop/core/aggregator.py`
lines 39-71): group files by language, skip languages without an available
runner, and analyze each group's files in order, appending to the report
list. -/
def analyze_files (runners : Language → Option Runner) (config : CodeCopConfig)
    (det : LanguageDetector) (m : Matcher) (file_paths : List PyPath) :
    List FileReport :=
  (group_by_language det m file_paths).foldl
    (fun reports g => reports ++ groupReports runners config g) []

/-- The extension-derived language: `EXTENSION_MAP.get(extension, UNKNOWN)`. -/
def extension_language (ext : String) : Language :=
  ((extension_map.find? (fun e => e.1 = ext)).map (·.2)).getD .unknown

/-- `isUnder base d`: the component list `base` is an initial segment of `d`
(the directory `d` lies inside `base`, or equals it). -/
def isUnder : Dir → Dir → Bool
  | [], _ => true
  | _ :: _, [] => false
  | a :: as, b :: bs => a == b && isUnder as bs

/-- Per-directory node of the rollup (`dir_stats` values in
`src/antipasta/cli/stats_collection.py`): direct reports, transitively
aggregated reports, the function-name set (as an insertion-ordered,
duplicate-free list) and the per-metric value lists (as an insertion-ordered
association list, one entry per metric name). -/
structure DirData where
  direct_files : List FileReport := []
  all_files : List FileReport := []
  function_names : List String := []
  metrics : List (String × List Rat) := []
deriving DecidableEq, Repr

/-- The empty directory node (the `defaultdict` factory). -/
def emptyDirData : DirData := {}

/-- The rollup's directory dictionary, as an insertion-ordered association
list with pairwise-distinct keys (a Python `dict`). -/
abbrev DirStats := List (Dir × DirData)

/-- Association lookup (first entry with the key). -/
def dsFind : DirStats → Dir → Option DirData
  | [], _ => none
  | e :: es, d => if e.1 = d then some e.2 else dsFind es d

/-- Dictionary lookup (`dir_stats[d]`, read-only; the `defaultdict` default
for a missing key). -/
def dsGet (ds : DirStats) (d : Dir) : DirData :=
  (dsFind ds d).getD emptyDirData

/-- Dictionary key test (`d in dir_stats`). -/
def dsHas (ds : DirStats) (d : Dir) : Bool :=
  (dsFind ds d).isSome

/-- Dictionary assignment: overwrite an existing key in place, or append a
new key at the end (Python `dict` insertion-order semantics). -/
def dsSet (ds : DirStats) (d : Dir) (data : DirData) : DirStats :=
  if dsHas ds d then ds.map (fun e => if e.1 = d then (e.1, data) else e)
  else ds ++ [(d, data)]

/-- Add a name to a Python `set` modelled as a duplicate-free list. -/
def snAdd (s : List String) (n : String) : List String :=
  if n ∈ s then s else s ++ [n]

/-- Set union (`set.update`). -/
def snUnion (s t : List String) : List String :=
  t.foldl snAdd s

/-- `defaultdict(list)` append for the per-metric value lists. -/
def mAdd (ms : List (String × List Rat)) (name : String) (v : Rat) :
    List (String × List Rat) :=
  if (ms.find? (fun e => e.1 = name)).isSome then
    ms.map (fun e => if e.1 = name then (e.1, e.2 ++ [v]) else e)
  else ms ++ [(name, [v])]

/-- Merge a child's metric value lists into a parent's
(`dir_stats[parent]["metrics"][name].extend(values)`). -/
def mExtend (pm cm : List (String × List Rat)) : List (String × List Rat) :=
  cm.foldl
    (fun acc nv =>
      if (acc.find? (fun e => e.1 = nv.1)).isSome then
        acc.map (fun e => if e.1 = nv.1 then (e.1, e.2 ++ nv.2) else e)
      else acc ++ [nv])
    pm

/-- The per-measurement body of the `build_directory_tree_structure` loop:
record the function name (Python truthiness: empty names are skipped) and
the metric value when its kind was requested. -/
def collectMetricsDir (metrics_to_include : List String) (dd : DirData)
    (metric : MetricResult) : DirData :=
  let dd :=
    if errTruthy metric.function_name then
      { dd with
        function_names := snAdd dd.function_names (metric.function_name.getD "") }
    else dd
  if metric.metric_type ∈ metrics_to_include then
    { dd with metrics := mAdd dd.metrics metric.metric_type metric.value }
  else dd

/-- The per-report step of `build_directory_tree_structure`: append the
report to its parent directory's `direct_files` and collect its function
names and requested metric values. -/
def addReportToTree (metrics_to_include : List String) (ds : DirStats)
    (r : FileReport) : DirStats :=
  let parent_dir := r.file_path.dir
  let data := dsGet ds parent_dir
  let data := { data with direct_files := data.direct_files ++ [r] }
  let data := r.metrics.foldl (collectMetricsDir metrics_to_include) data
  dsSet ds parent_dir data

/-- `build_directory_tree_structure` (lines 68-99): one node per distinct
parent directory, in first-appearance order. -/
def build_directory_tree_structure (reports : List FileReport)
    (metrics_to_include : List String) : DirStats :=
  reports.foldl (addReportToTree metrics_to_include) []

/-- `ensure_parent_exists` (lines 135-148): create an empty node for a
missing parent key. -/
def ensure_parent_exists (ds : DirStats) (parent : Dir) : DirStats :=
  if dsHas ds parent then ds else ds ++ [(parent, emptyDirData)]

/-- `aggregate_child_to_parent` (lines 151-167): extend the parent's
aggregated file list with the child's direct files, union the function-name
sets and extend the per-metric value lists. -/
def aggregate_child_to_parent (ds : DirStats) (parent child : Dir) : DirStats :=
  let cd := dsGet ds child
  let pd := dsGet ds parent
  dsSet ds parent
    { pd with
      all_files := pd.all_files ++ cd.direct_files
      function_names := snUnion pd.function_names cd.function_names
      metrics := mExtend pd.metrics cd.metrics }

/-- The `while current != current.parent` loop of `propagate_stats_to_parents`
(lines 118-132): walk from `current` through every ancestor, merging
`dir_path`'s direct statistics into each. -/
def propagateLoop (ds : DirStats) (dir_path current : Dir) : DirStats :=
  if h : current = [] then ds
  else
    let parent := current.dropLast
    propagateLoop (aggregate_child_to_parent (ensure_parent_exists ds parent) parent dir_path)
      dir_path parent
termination_by current.length
decreasing_by
  simp only [List.length_dropLast]
  cases current with
  | nil => exact absurd rfl h
  | cons a as => simp

/-- `propagate_stats_to_parents`: start the upward walk at the directory
itself. -/
def propagate_stats_to_parents (ds : DirStats) (dir_path : Dir) : DirStats :=
  propagateLoop ds dir_path dir_path

/-- `finalize_all_files` (lines 170-177): append each node's direct files to
its own aggregated list. -/
def finalize_all_files (ds : DirStats) : DirStats :=
  ds.map (fun e => (e.1, { e.2 with all_files := e.2.all_files ++ e.2.direct_files }))

/-- `aggregate_directory_tree_upward` (lines 102-115): process directories
deepest first (a stable sort on part count, descending, as Python's
`sorted(..., reverse=True)`), propagating each to all its ancestors, then
finalize. -/
def aggregate_directory_tree_upward (ds : DirStats) : DirStats :=
  let sorted_dirs :=
    (ds.map Prod.fst).mergeSort (fun a b => decide (b.length ≤ a.length))
  finalize_all_files (sorted_dirs.foldl propagate_stats_to_parents ds)

/-- Modelled from the spec: `remove_duplicate_files` (in the absent
`stats_utils.py`) de-duplicates a directory's aggregated report list keying
on file identity (the report's object id), not value equality, keeping first
occurrences. -/
def remove_duplicate_files (files : List FileReport) : List FileReport :=
  files.foldl
    (fun acc r => if acc.any (fun x => x.rid = r.rid) then acc else acc ++ [r]) []

/-- Modelled from the spec: `calculate_relative_depth` (in the absent
`stats_utils.py`) returns the path of a directory relative to the base and
its relative depth, `none` for a directory not strictly under the base; a
top-level directory (direct child of the base) has depth 0, so that with
`max_depth=1` exactly the top-level directories survive the
`dir_depth >= effective_depth` cut. -/
def calculate_relative_depth (dir_path common_base : Dir) :
    Option (Dir × Nat) :=
  if isUnder common_base dir_path ∧ dir_path ≠ common_base then
    some (dir_path.drop common_base.length,
          dir_path.length - common_base.length - 1)
  else none

/-- `should_include_directory` (lines 225-252): a directory is kept when its
aggregated file list is non-empty, it lies under the base, and its relative
depth is strictly below the effective depth. -/
def should_include_directory (data : DirData) (dir_path common_base : Dir)
    (effective_depth : Nat) : Bool :=
  if data.all_files = [] then false
  else
    match calculate_relative_depth dir_path common_base with
    | none => false
    | some (_, dir_depth) => decide (dir_depth < effective_depth)

/-- One row of the rollup result map: file count, distinct function count,
the optional LOC statistics and the `avg_<metric>` entries in insertion
order. -/
structure ResultEntry where
  file_count : Nat
  function_count : Nat
  avg_file_loc : Option Int := none
  total_loc : Option Int := none
  avgs : List (String × Rat) := []
deriving DecidableEq, Repr

/-- `statistics.mean` totalized with value 0 on the empty list (the source
only calls it on non-empty lists). -/
def mean (l : List Rat) : Rat :=
  l.sum / (l.length : Rat)

/-- Python `int()` truncation toward zero on a rational. -/
def pyInt (q : Rat) : Int :=
  q.num / (q.den : Int)

/-- The LOC-family metric names (the integer-constrained fields of
`MetricThresholds` in `src/antipasta/core/metric_models.py`). -/
def loc_metric_names : List String :=
  ["lines_of_code", "logical_lines_of_code", "source_lines_of_code",
   "comment_lines", "blank_lines"]

/-- Modelled from the spec: `should_collect_loc_metrics` (in the absent
`stats_utils.py`) tests whether any LOC-family metric was requested. -/
def should_collect_loc_metrics (metrics_to_include : List String) : Bool :=
  metrics_to_include.any (fun s => s ∈ loc_metric_names)

/-- Modelled from the spec: `extract_file_loc_from_report` (in the absent
`stats_utils.py`) reads a report's file-level `lines_of_code` measurement
(no function name), 0 when absent. -/
def extract_file_loc_from_report (r : FileReport) : Int :=
  match r.metrics.find?
      (fun mt => mt.metric_type = "lines_of_code" ∧ mt.function_name = none) with
  | some mt => pyInt mt.value
  | none => 0

/-- `extract_file_locs_from_reports` (lines 286-300): positive LOC values
only. -/
def extract_file_locs_from_reports (reports : List FileReport) : List Int :=
  (reports.map extract_file_loc_from_report).filter (fun v => 0 < v)

/-- `build_base_directory_result` (lines 255-268). -/
def build_base_directory_result (data : DirData)
    (unique_files : List FileReport) : ResultEntry :=
  { file_count := unique_files.length
    function_count := data.function_names.length }

/-- `add_loc_statistics_to_result` (lines 271-283): LOC statistics are
computed over the raw (not de-duplicated) aggregated list. -/
def add_loc_statistics_to_result (entry : ResultEntry)
    (all_files : List FileReport) : ResultEntry :=
  let file_locs := extract_file_locs_from_reports all_files
  { entry with
    avg_file_loc :=
      some (if file_locs = [] then 0 else pyInt (mean (file_locs.map (fun i => (i : Rat)))))
    total_loc := some file_locs.sum }

/-- `add_metric_statistics_to_result` (lines 303-317): for each non-empty
metric value list, the stored average is taken over
`values[: len(unique_files)]` — the first `len(unique_files)` values. -/
def add_metric_statistics_to_result (entry : ResultEntry)
    (metrics : List (String × List Rat)) (unique_files : List FileReport) :
    ResultEntry :=
  metrics.foldl
    (fun acc nv =>
      if nv.2 ≠ [] then
        { acc with
          avgs := acc.avgs ++ [("avg_" ++ nv.1, mean (nv.2.take unique_files.length))] }
      else acc)
    entry

/-- Modelled from the spec: `create_display_path` formatting
(`format_display_path` / `truncate_path_for_display` live in the absent
`stats_utils.py` and are display-only); the result map is keyed by the
relative path (spec §4.6: `map[path] -> Stats`). -/
def create_display_path (rel_path : Dir) (path_style : String) : Dir :=
  rel_path

/-- The full result row built for one included directory inside
`build_directory_results`. -/
def build_result_entry (data : DirData) (metrics_to_include : List String) :
    ResultEntry :=
  let unique_files := remove_duplicate_files data.all_files
  let entry := build_base_directory_result data unique_files
  let entry :=
    if should_collect_loc_metrics metrics_to_include then
      add_loc_statistics_to_result entry data.all_files
    else entry
  add_metric_statistics_to_result entry data.metrics unique_files

/-- `build_directory_results` (lines 180-222): keep the directories passing
`should_include_directory` and key each row by its (display) relative path;
relative paths of distinct directories under one base are distinct, so the
dict assignment never overwrites. -/
def build_directory_results (ds : DirStats) (metrics_to_include : List String)
    (common_base : Dir) (effective_depth : Nat) (path_style : String) :
    List (Dir × ResultEntry) :=
  ds.filterMap
    (fun e =>
      if should_include_directory e.2 e.1 common_base effective_depth then
        match calculate_relative_depth e.1 common_base with
        | some (rel_path, _) =>
          some (create_display_path rel_path path_style,
                build_result_entry e.2 metrics_to_include)
        | none => none
      else none)

/-- Modelled from the spec: `find_common_base_directory` (in the absent
`stats_utils.py`); §4.6 measures relative depth under the `base_dir`
argument of the rollup call. -/
def find_common_base_directory (reports : List FileReport) (base_dir : Dir) :
    Dir :=
  base_dir

/-- `collect_directory_stats` (lines 340-371): unlimited depth (`depth = 0`)
is capped at the safety boundary `MAX_DEPTH = 20`. -/
def collect_directory_stats (reports : List FileReport)
    (metrics_to_include : List String) (base_dir : Dir) (depth : Nat)
    (path_style : String) : List (Dir × ResultEntry) :=
  if reports = [] then []
  else
    let effective_depth := if depth = 0 then 20 else depth
    let dir_stats :=
      aggregate_directory_tree_upward
        (build_directory_tree_structure reports metrics_to_include)
    let common_base := find_common_base_directory reports base_dir
    build_directory_results dir_stats metrics_to_include common_base
      effective_depth path_style

/-- The `while current != current.parent` walk of `determine_module_name`
(lines 374-394): collect directory names upward while the package marker
`__init__.py` is present (the filesystem `exists` test is the `hasInit`
parameter), stopping at the first ancestor lacking it. -/
def moduleWalk (hasInit : Dir → Bool) (current : Dir) : List String :=
  if h : current = [] then []
  else if hasInit current then
    moduleWalk hasInit current.dropLast ++ [current.getLast h]
  else []
termination_by current.length
decreasing_by
  simp only [List.length_dropLast]
  cases current with
  | nil => exact absurd rfl h
  | cons a as => simp

/-- `determine_module_name`: the dotted module path, `"<root>"` when the
file's immediate parent is not a package. -/
def determine_module_name (hasInit : Dir → Bool) (r : FileReport) : String :=
  let module_parts := moduleWalk hasInit r.file_path.dir
  if module_parts = [] then "<root>" else String.intercalate "." module_parts

/-- Per-module node of the flat module rollup (`module_stats` values in
`group_reports_by_module`). -/
structure ModuleData where
  files : List FileReport := []
  function_names : List String := []
  metrics : List (String × List Rat) := []
deriving DecidableEq, Repr

/-- The empty module node (the `defaultdict` factory). -/
def emptyModuleData : ModuleData := {}

/-- Lookup in the module-grouping dictionary (first entry with the key). -/
def lookupM : List (String × ModuleData) → String → Option ModuleData
  | [], _ => none
  | e :: es, name => if e.1 = name then some e.2 else lookupM es name

/-- The per-measurement body of the `group_reports_by_module` loop. -/
def collectMetricsModule (metrics_to_include : List String) (dd : ModuleData)
    (metric : MetricResult) : ModuleData :=
  let dd :=
    if errTruthy metric.function_name then
      { dd with
        function_names := snAdd dd.function_names (metric.function_name.getD "") }
    else dd
  if metric.metric_type ∈ metrics_to_include then
    { dd with metrics := mAdd dd.metrics metric.metric_type metric.value }
  else dd

/-- The per-report step of `group_reports_by_module` (lines 397-428). -/
def addReportToModules (hasInit : Dir → Bool)
    (metrics_to_include : List String) (ms : List (String × ModuleData))
    (r : FileReport) : List (String × ModuleData) :=
  let module_name := determine_module_name hasInit r
  let data := (lookupM ms module_name).getD emptyModuleData
  let data := { data with files := data.files ++ [r] }
  let data := r.metrics.foldl (collectMetricsModule metrics_to_include) data
  if (lookupM ms module_name).isSome then
    ms.map (fun e => if e.1 = module_name then (e.1, data) else e)
  else ms ++ [(module_name, data)]

/-- `group_reports_by_module`: flat grouping of the reports by module name
(no tree propagation between groups). -/
def group_reports_by_module (hasInit : Dir → Bool)
    (reports : List FileReport) (metrics_to_include : List String) :
    List (String × ModuleData) :=
  reports.foldl (addReportToModules hasInit metrics_to_include) []

/-- Configuration overrides from command-line flags (`ConfigOverride` in
`src/antipasta/core/config_override.py`). -/
structure ConfigOverride where
  include_patterns : List String := []
  exclude_patterns : List String := []
  disable_gitignore : Bool := false
  force_analyze : Bool := false
deriving DecidableEq, Repr

/-- A pattern-list matcher over plain path strings (`pathspec` matching in
`should_force_include` and in the antipasta detector, treated as an external
collaborator). -/
abbrev StrMatcher := List String → String → Bool

/-- `ConfigOverride.get_effective_ignore_patterns` (lines 160-183): empty
under `force_analyze`, otherwise the base patterns plus the not-yet-present
exclude overrides in order. -/
def get_effective_ignore_patterns (ov : ConfigOverride)
    (base_patterns : List String) : List String :=
  if ov.force_analyze then []
  else
    ov.exclude_patterns.foldl
      (fun acc p => if p ∈ acc then acc else acc ++ [p]) base_patterns

/-- `ConfigOverride.should_force_include` (lines 185-205): always true under
`force_analyze`; false with no include patterns; otherwise the pathspec
match. -/
def should_force_include (m : StrMatcher) (ov : ConfigOverride)
    (file_path : String) : Bool :=
  if ov.force_analyze then true
  else if ov.include_patterns = [] then false
  else m ov.include_patterns file_path

/-- Result of classifying one path. -/
inductive Classification where
  | ignoredFile
  | lang (l : Language)
deriving DecidableEq, Repr

/-- Modelled from the spec: `classify(path)` (§4.1) — the antipasta
`LanguageDetector` composing the overrides is not under `src/`.  Force
include (which subsumes force-analyze) is tested first, then the effective
ignore patterns (an empty pattern list matches nothing), else the
extension-derived language; `ext` is the path's lowercased suffix. -/
def classify (m : StrMatcher) (ov : ConfigOverride)
    (base_patterns : List String) (file_path : String) (ext : String) :
    Classification :=
  if should_force_include m ov file_path then .lang (extension_language ext)
  else
    let pats := get_effective_ignore_patterns ov base_patterns
    if !pats.isEmpty && m pats file_path then .ignoredFile
    else .lang (extension_language ext)

/-- The valid metric-kind names: the fields of `MetricThresholds`
(`src/antipasta/core/metric_models.py`); the `MetricType` enum itself is not
under `src/` but enumerates exactly these kinds. -/
def valid_metric_types : List String :=
  ["cyclomatic_complexity", "cognitive_complexity", "maintainability_index",
   "halstead_volume", "halstead_difficulty", "halstead_effort",
   "halstead_time", "halstead_bugs", "lines_of_code",
   "logical_lines_of_code", "source_lines_of_code", "comment_lines",
   "blank_lines"]

/-- The static numeric range table of `src/antipasta/core/metric_models.py`:
integer-constrained kinds require an integral value (pydantic's lax
float-to-int coercion rejects fractional values), and each kind has its
`ge`/`le` bounds.  The final case covers the five LOC-family integer
fields. -/
def validate_threshold_value (name : String) (v : Rat) : Bool :=
  if name = "cyclomatic_complexity" then decide (v.den = 1 ∧ 1 ≤ v ∧ v ≤ 50)
  else if name = "cognitive_complexity" then decide (v.den = 1 ∧ 1 ≤ v ∧ v ≤ 100)
  else if name = "maintainability_index" then decide (0 ≤ v ∧ v ≤ 100)
  else if name = "halstead_volume" then decide (0 ≤ v ∧ v ≤ 100000)
  else if name = "halstead_difficulty" then decide (0 ≤ v ∧ v ≤ 100)
  else if name = "halstead_effort" then decide (0 ≤ v ∧ v ≤ 1000000)
  else if name = "halstead_time" then decide (0 ≤ v)
  else if name = "halstead_bugs" then decide (0 ≤ v)
  else decide (v.den = 1 ∧ 0 ≤ v)

/-- `ConfigOverride.set_threshold` (lines 69-95): reject an unknown metric
kind, then validate the value against the static range table. -/
def set_threshold (name : String) (v : Rat) : Except String Unit :=
  if name ∉ valid_metric_types then
    .error ("Invalid metric type: " ++ name)
  else if validate_threshold_value name v then .ok ()
  else .error ("Invalid value for " ++ name)

/-- Python's `s.split('=', 1)`: the part before the first `'='` and the part
after it (character-level embedding). -/
def pySplitFirstEq (s : String) : String × String :=
  let cs := s.toList
  (String.mk (cs.takeWhile (fun c => c ≠ '=')),
   String.mk ((cs.dropWhile (fun c => c ≠ '=')).drop 1))

/-- Python's `str.strip()`: drop leading and trailing whitespace
(character-level embedding). -/
def pyStrip (s : String) : String :=
  String.mk
    (((s.toList.dropWhile Char.isWhitespace).reverse.dropWhile
        Char.isWhitespace).reverse)

/-- `ConfigOverride.parse_threshold_string` (lines 124-144): require an
`'='`, split at the first one, strip both sides, parse the value with
Python's `float()` (an external parser, the `pyFloat` parameter), then
validate via `set_threshold`. -/
def parse_threshold_string (pyFloat : String → Option Rat) (s : String) :
    Except String (String × Rat) :=
  if ¬ s.toList.contains '=' then
    .error ("Invalid threshold format: " ++ s)
  else
    let parts := pySplitFirstEq s
    let metric_type := pyStrip parts.1
    let value_str := pyStrip parts.2
    match pyFloat value_str with
    | none => .error ("Invalid threshold value: " ++ value_str)
    | some v => (set_threshold metric_type v).map (fun _ => (metric_type, v))

/-- `_parse_threshold_overrides_into_override`
(`src/antipasta/cli/metrics.py` lines 247-254): parse the override strings
in order, aborting on the first failure. -/
def parse_threshold_overrides (pyFloat : String → Option Rat)
    (thresholds : List String) : Except String (List (String × Rat)) :=
  thresholds.foldl
    (fun acc s =>
      match acc with
      | .error e => .error e
      | .ok l =>
        match parse_threshold_string pyFloat s with
        | .error e => .error e
        | .ok p => .ok (l ++ [p]))
    (.ok [])

/-- The `metrics` command's order of operations
(`src/antipasta/cli/metrics.py` lines 100-111): overrides are created and
parsed (`sys.exit(1)` on failure) strictly before any file analysis runs, so
a parse failure yields an error with no reports. -/
def run_metrics_pipeline (pyFloat : String → Option Rat)
    (thresholds : List String) (analysis : Unit → List FileReport) :
    Except String (List FileReport) :=
  match parse_threshold_overrides pyFloat thresholds with
  | .error e => .error e
  | .ok _ => .ok (analysis ())

/-- A directory node's aggregated report list after a rollup stage. -/
def allOf (ds : DirStats) (d : Dir) : List FileReport :=
  (dsGet ds d).all_files

/-- A directory node's direct report list. -/
def directOf (ds : DirStats) (d : Dir) : List FileReport :=
  (dsGet ds d).direct_files

/-- The key list of the directory dictionary. -/
def keysOf (ds : DirStats) : List Dir :=
  ds.map Prod.fst

/-- Whether an `Except` result is an error. -/
def isErr {α : Type} : Except String α → Bool
  | .error _ => true
  | .ok _ => false

/-- The runner table of `MetricAggregator.__init__`:
`{Language.PYTHON: RadonRunner()}`, with the Python runner built from a raw,
possibly-throwing measurement step. -/
def runnersPy (raw : PyPath → Except String FileMetrics) :
    Language → Option Runner :=
  fun l =>
    match l with
    | .python => some { available := true, analyze := runner_of_raw raw }
    | _ => none

/-- Rendering of a path for ordering comparisons. -/
def pathStr (p : PyPath) : String :=
  String.intercalate "/" (p.dir ++ [p.name])

/-- Path-order comparison used to express "a stable sort of the input
paths". -/
def pathLeB (a b : PyPath) : Bool :=
  decide (pathStr a ≤ pathStr b)

/-- A stable sort of a path list by path order (insertion sort is stable). -/
def sortedPaths (fps : List PyPath) : List PyPath :=
  List.insertionSort (fun a b => pathStr a ≤ pathStr b) fps

/-- A matcher that never matches (used at concrete inputs). -/
def m0 : Matcher := fun _ _ => false

/-- A detector with no ignore patterns. -/
def det0 : LanguageDetector := { ignore_patterns := [] }

/-- A configuration with no language entries (so the default Python rule set
is synthesized). -/
def config0 : CodeCopConfig := {}

/-- Concrete Python file `a.py`. -/
def pyA : PyPath := { dir := [], name := "a.py", ext := ".py" }

/-- Concrete Python file `b.py`. -/
def pyB : PyPath := { dir := [], name := "b.py", ext := ".py" }

/-- A concrete cyclomatic-complexity measurement on `d/a.py`. -/
def metricCC (v : Rat) : MetricResult :=
  { file_path := pyA, metric_type := "cyclomatic_complexity", value := v
    function_name := some "f" }

/-- A runner that reports a violating measurement together with an
empty-string error. -/
def runnerEmptyErr : Runner :=
  { available := true, analyze := fun _ => { metrics := [metricCC 99], error := some "" } }

/-- Runner table registering `runnerEmptyErr` for Python. -/
def runnersErr : Language → Option Runner :=
  fun l => match l with | .python => some runnerEmptyErr | _ => none

/-- A runner that returns no measurements and no error. -/
def runnerPlain : Runner :=
  { available := true, analyze := fun _ => { metrics := [], error := none } }

/-- Runner table registering `runnerPlain` for Python. -/
def runnersPlain : Language → Option Runner :=
  fun l => match l with | .python => some runnerPlain | _ => none

/-- Concrete report `a/x.py` (identity 1) with one cyclomatic value 2. -/
def rBug1 : FileReport :=
  { rid := 1, file_path := { dir := ["a"], name := "x.py", ext := ".py" }
    language := "python"
    metrics := [{ file_path := { dir := ["a"], name := "x.py", ext := ".py" }
                  metric_type := "cyclomatic_complexity", value := 2
                  function_name := some "f" }]
    violations := [] }

/-- Concrete report `a/y.py` (identity 2) with one cyclomatic value 4. -/
def rBug2 : FileReport :=
  { rid := 2, file_path := { dir := ["a"], name := "y.py", ext := ".py" }
    language := "python"
    metrics := [{ file_path := { dir := ["a"], name := "y.py", ext := ".py" }
                  metric_type := "cyclomatic_complexity", value := 4
                  function_name := some "g" }]
    violations := [] }

/-- A directory node whose aggregated list contains report `rBug1` twice
(as through two propagation paths) and `rBug2` once, with the matching
aggregated metric value list. -/
def datumBug : DirData :=
  { direct_files := []
    all_files := [rBug1, rBug1, rBug2]
    function_names := []
    metrics := [("cyclomatic_complexity", [2, 2, 4])] }

/-- The directory dictionary holding `datumBug` under directory `a`. -/
def dsBug : DirStats := [(["a"], datumBug)]

/-- A runner that always fails with a non-empty error message. -/
def runnerBoom : Runner :=
  { available := true, analyze := fun _ => { metrics := [], error := some "boom" } }

/-- Runner table registering `runnerBoom` for Python. -/
def runnersBoom : Language → Option Runner :=
  fun l => match l with | .python => some runnerBoom | _ => none

/-- The report produced for `d/a.py` under `runnerBoom` with the default
Python rule set. -/
def rBoomReport : FileReport :=
  analyze_file 0 pyA Language.python runnerBoom
    (create_default_language_config config0 Language.python).metrics

/-- A pattern matcher over strings that matches a path when it is literally
among the patterns (used at concrete inputs). -/
def mEq : StrMatcher := fun pats fp => pats.contains fp

/-- A concrete stand-in for Python `float()` used at concrete inputs
(the fraction 31/2 is given in normalized form so that it evaluates by
`decide`). -/
def pyFloatFix : String → Option Rat :=
  fun s =>
    if s = "15" then some 15
    else if s = "15.5" then some (Rat.mk' 31 2 (by decide) (by decide))
    else none

/-- A concrete override with one force-include pattern. -/
def ovX : ConfigOverride := { include_patterns := ["x.py"] }

/-- Concrete package-marker directories: `m1`, `m1/m2`, `m1/m2/m3` all carry
`__init__.py`. -/
def markersX : List Dir := [["m1"], ["m1", "m2"], ["m1", "m2", "m3"]]

/-- The concrete filesystem `exists` test for `markersX`. -/
def hasInitX : Dir → Bool := fun d => markersX.contains d

/-- A concrete report for file `m1/m2/m3/f.py`. -/
def rMod : FileReport :=
  { rid := 7
    file_path := { dir := ["m1", "m2", "m3"], name := "f.py", ext := ".py" }
    language := "python", metrics := [], violations := [] }

end Antipasta

namespace Antipasta

/-- C1: for every measurement and threshold rule, `check_metric_violation`
returns no violation when the rule is disabled; when enabled it returns a
violation exactly when the operator test fails under boundary semantics
(`<` flags `value >= threshold`, `<=` flags `value > threshold`, `>` flags
`value <= threshold`, `>=` flags `value < threshold`, `=` flags
`value != threshold`, `!=` flags `value == threshold`). -/
theorem check_metric_violation_boundary (metric : MetricResult)
    (config : MetricConfig) :
    check_metric_violation metric config ≠ none ↔
      (config.enabled = true ∧
        match config.comparison with
        | .lt => config.threshold ≤ metric.value
        | .le => config.threshold < metric.value
        | .gt => metric.value ≤ config.threshold
        | .ge => metric.value < config.threshold
        | .eq => metric.value ≠ config.threshold
        | .ne => metric.value = config.threshold) := by
  unfold check_metric_violation
  cases hen : config.enabled <;> cases hc : config.comparison <;>
    simp [hen, hc, ge_iff_le, gt_iff_lt]

theorem foldl_append_flatMap {α β : Type} (f : α → List β) (gs : List α) :
    ∀ acc : List β,
      gs.foldl (fun reports g => reports ++ f g) acc = acc ++ gs.flatMap f := by
  induction gs with
  | nil => intro acc; simp
  | cons g gs ih => intro acc; simp [ih, List.append_assoc]

theorem analyze_files_eq_flatMap (runners : Language → Option Runner)
    (config : CodeCopConfig) (det : LanguageDetector) (m : Matcher)
    (fps : List PyPath) :
    analyze_files runners config det m fps =
      (group_by_language det m fps).flatMap (groupReports runners config) := by
  unfold analyze_files
  simpa using foldl_append_flatMap (groupReports runners config) _ []

theorem groupReports_eq_none (runners : Language → Option Runner)
    (config : CodeCopConfig) (g : Language × List PyPath)
    (h : runners g.1 = none) : groupReports runners config g = [] := by
  simp [groupReports, h]

theorem groupReports_eq_unavailable (runners : Language → Option Runner)
    (config : CodeCopConfig) (g : Language × List PyPath) (runner : Runner)
    (h : runners g.1 = some runner) (ha : runner.available = false) :
    groupReports runners config g = [] := by
  simp [groupReports, h, ha]

theorem groupReports_eq_some (runners : Language → Option Runner)
    (config : CodeCopConfig) (g : Language × List PyPath) (runner : Runner)
    (h : runners g.1 = some runner) (ha : runner.available = true) :
    groupReports runners config g =
      (g.2.enum).map
        (fun fi =>
          analyze_file fi.1 fi.2 g.1 runner
            ((get_language_config config g.1.value).getD
              (create_default_language_config config g.1)).metrics) := by
  simp [groupReports, h, ha]

theorem lookupG_append_single (groups : List (Language × List PyPath))
    (lang : Language) (files : List PyPath) (lang' : Language) :
    lookupG (groups ++ [(lang, files)]) lang' =
      match lookupG groups lang' with
      | some x => some x
      | none => if lang = lang' then some files else none := by
  induction groups with
  | nil => simp [lookupG]
  | cons g gs ih =>
    by_cases hg : g.1 = lang' <;> simp [lookupG, hg, ih]

theorem lookupG_map_update (groups : List (Language × List PyPath))
    (lang : Language) (p : PyPath) (lang' : Language) :
    lookupG (groups.map (fun g => if g.1 = lang then (g.1, g.2 ++ [p]) else g)) lang' =
      if lang = lang' then (lookupG groups lang').map (fun l => l ++ [p])
      else lookupG groups lang' := by
  induction groups with
  | nil => simp [lookupG]
  | cons g gs ih =>
    by_cases hgl : g.1 = lang
    · by_cases hg' : g.1 = lang'
      · have : lang = lang' := hgl.symm.trans hg'
        subst this
        simp [lookupG, hgl, hg']
      · have hne : ¬ lang = lang' := fun hc => hg' (hgl.trans hc)
        simp [lookupG, hgl, hg', hne, ih]
    · by_cases hg' : g.1 = lang'
      · have hne : ¬ lang = lang' := fun hc => hgl (hg'.trans hc.symm)
        have hne' : ¬ lang' = lang := fun hc => hne hc.symm
        simp [lookupG, hgl, hg', hne, hne']
      · simp [lookupG, hgl, hg', ih]

theorem lookupG_addToGroups (groups : List (Language × List PyPath))
    (lang : Language) (p : PyPath) (lang' : Language) :
    lookupG (addToGroups groups lang p) lang' =
      if lang = lang' then some (((lookupG groups lang).getD []) ++ [p])
      else lookupG groups lang' := by
  unfold addToGroups
  cases hf : lookupG groups lang with
  | some files =>
    rw [if_pos (by simp [hf]), lookupG_map_update]
    by_cases h : lang = lang'
    · subst h; simp [hf]
    · simp [h]
  | none =>
    rw [if_neg (by simp [hf]), lookupG_append_single]
    by_cases h : lang = lang'
    · subst h; simp [hf]
    · cases hl : lookupG groups lang' <;> simp [h, hl]

theorem keys_addToGroups (groups : List (Language × List PyPath))
    (lang : Language) (p : PyPath) :
    (addToGroups groups lang p).map Prod.fst =
      if lookupG groups lang = none then groups.map Prod.fst ++ [lang]
      else groups.map Prod.fst := by
  unfold addToGroups
  cases hf : lookupG groups lang with
  | some files =>
    rw [if_pos (by simp [hf]), if_neg (by simp [hf]), List.map_map]
    congr 1
    funext g
    by_cases h : g.1 = lang <;> simp [h]
  | none =>
    rw [if_neg (by simp [hf]), if_pos rfl]
    simp

theorem lookupG_none_iff_not_mem (groups : List (Language × List PyPath))
    (lang : Language) :
    lookupG groups lang = none ↔ lang ∉ groups.map Prod.fst := by
  induction groups with
  | nil => simp [lookupG]
  | cons g gs ih =>
    by_cases h : g.1 = lang
    · simp [lookupG, h]
    · rw [show lookupG (g :: gs) lang = lookupG gs lang from by simp [lookupG, h], ih]
      simp only [List.map_cons, List.mem_cons]
      constructor
      · intro hn hor
        rcases hor with he | hm
        · exact h he.symm
        · exact hn hm
      · intro hn hm
        exact hn (Or.inr hm)

theorem nodup_keys_group_step (det : LanguageDetector) (m : Matcher)
    (groups : List (Language × List PyPath)) (p : PyPath)
    (h : (groups.map Prod.fst).Nodup) :
    ((group_step det m groups p).map Prod.fst).Nodup := by
  cases hd : detect_language det m p with
  | none => simpa [group_step, hd] using h
  | some lang =>
    by_cases hu : lang = Language.unknown
    · simpa [group_step, hd, hu] using h
    · have hstep : group_step det m groups p = addToGroups groups lang p := by
        simp [group_step, hd, hu]
      rw [hstep, keys_addToGroups]
      cases hl : lookupG groups lang with
      | none =>
        rw [if_pos rfl]
        have hm := (lookupG_none_iff_not_mem groups lang).mp hl
        simp [List.nodup_append, h, hm]
      | some files => simp [hl, h]

theorem nodup_keys_group_fold (det : LanguageDetector) (m : Matcher) :
    ∀ (fps : List PyPath) (groups : List (Language × List PyPath)),
      (groups.map Prod.fst).Nodup →
      ((fps.foldl (group_step det m) groups).map Prod.fst).Nodup := by
  intro fps
  induction fps with
  | nil => intro groups h; exact h
  | cons p fps ih =>
    intro groups h
    exact ih _ (nodup_keys_group_step det m groups p h)

theorem nodup_keys_group_by_language (det : LanguageDetector) (m : Matcher)
    (fps : List PyPath) :
    ((group_by_language det m fps).map Prod.fst).Nodup :=
  nodup_keys_group_fold det m fps [] (by simp)

theorem lookupG_group_fold (det : LanguageDetector) (m : Matcher) :
    ∀ (fps : List PyPath) (groups : List (Language × List PyPath))
      (lang : Language), lang ≠ Language.unknown →
      lookupG (fps.foldl (group_step det m) groups) lang =
        (match lookupG groups lang with
         | some gl => some (gl ++ fps.filter (fun p => detect_language det m p = some lang))
         | none =>
           if fps.filter (fun p => detect_language det m p = some lang) = [] then none
           else some (fps.filter (fun p => detect_language det m p = some lang))) := by
  intro fps
  induction fps with
  | nil =>
    intro groups lang _
    cases hl : lookupG groups lang <;> simp [hl]
  | cons p fps ih =>
    intro groups lang hlang
    rw [List.foldl_cons]
    cases hd : detect_language det m p with
    | none =>
      have hstep : group_step det m groups p = groups := by simp [group_step, hd]
      rw [hstep, ih groups lang hlang]
      have hnp : ¬ (detect_language det m p = some lang) := by simp [hd]
      simp [List.filter_cons, hnp]
    | some l =>
      by_cases hu : l = Language.unknown
      · have hstep : group_step det m groups p = groups := by
          simp [group_step, hd, hu]
        rw [hstep, ih groups lang hlang]
        have hnp : ¬ (detect_language det m p = some lang) := by
          rw [hd]
          intro hc
          injection hc with hc'
          exact hlang (hc'.symm.trans hu)
        simp [List.filter_cons, hnp]
      · have hstep : group_step det m groups p = addToGroups groups l p := by
          simp [group_step, hd, hu]
        rw [hstep, ih _ lang hlang, lookupG_addToGroups]
        by_cases hll : l = lang
        · subst hll
          have hdl : detect_language det m p = some l := hd
          rw [if_pos rfl]
          cases hl : lookupG groups l with
          | some gl => simp [List.filter_cons, hdl, hl]
          | none => simp [List.filter_cons, hdl, hl]
        · rw [if_neg hll]
          have hnp : ¬ (detect_language det m p = some lang) := by
            rw [hd]
            intro hc
            injection hc with hc'
            exact hll hc'
          simp [List.filter_cons, hnp]

theorem lookupG_group_by_language (det : LanguageDetector) (m : Matcher)
    (fps : List PyPath) (lang : Language) (hlang : lang ≠ Language.unknown) :
    lookupG (group_by_language det m fps) lang =
      (if fps.filter (fun p => detect_language det m p = some lang) = [] then none
       else some (fps.filter (fun p => detect_language det m p = some lang))) := by
  unfold group_by_language
  rw [lookupG_group_fold det m fps [] lang hlang]
  simp [lookupG]

theorem groupReports_language (runners : Language → Option Runner)
    (config : CodeCopConfig) (g : Language × List PyPath) (r : FileReport)
    (h : r ∈ groupReports runners config g) : r.language = g.1.value := by
  cases hr : runners g.1 with
  | none => rw [groupReports_eq_none runners config g hr] at h; simp at h
  | some runner =>
    cases ha : runner.available with
    | false =>
      rw [groupReports_eq_unavailable runners config g runner hr ha] at h
      simp at h
    | true =>
      rw [groupReports_eq_some runners config g runner hr ha] at h
      obtain ⟨fi, _, hfi⟩ := List.mem_map.mp h
      rw [← hfi]
      rfl

theorem groupReports_map_path (runners : Language → Option Runner)
    (config : CodeCopConfig) (lang : Language) (files : List PyPath) :
    (groupReports runners config (lang, files)).map (·.file_path) =
      (match runners lang with
       | some runner => if runner.available then files else []
       | none => []) := by
  cases hr : runners lang with
  | none => rw [groupReports_eq_none runners config (lang, files) hr]; simp
  | some runner =>
    cases ha : runner.available with
    | false =>
      rw [groupReports_eq_unavailable runners config (lang, files) runner hr ha]
      simp [ha]
    | true =>
      rw [groupReports_eq_some runners config (lang, files) runner hr ha]
      rw [List.map_map]
      have hcomp : ((fun r : FileReport => r.file_path) ∘
          fun fi : Nat × PyPath =>
            analyze_file fi.1 fi.2 (lang, files).1 runner
              ((get_language_config config (lang, files).1.value).getD
                (create_default_language_config config (lang, files).1)).metrics) =
          Prod.snd := by
        funext fi; rfl
      rw [hcomp]
      simp [List.enum_map_snd, ha]

theorem Language.value_inj (a b : Language) (h : a.value = b.value) : a = b := by
  cases a <;> cases b <;> first | rfl | (exfalso; simp [Language.value] at h)

theorem filtered_reports (runners : Language → Option Runner)
    (config : CodeCopConfig) :
    ∀ (groups : List (Language × List PyPath)) (lang : Language),
      (groups.map Prod.fst).Nodup →
      ((groups.flatMap (groupReports runners config)).filter
          (fun r => r.language = lang.value)).map (·.file_path) =
        (match lookupG groups lang with
         | some files =>
           (match runners lang with
            | some runner => if runner.available then files else []
            | none => [])
         | none => []) := by
  intro groups
  induction groups with
  | nil => intro lang _; simp [lookupG]
  | cons g gs ih =>
    intro lang hnd
    have hnd' : (gs.map Prod.fst).Nodup := (List.nodup_cons.mp hnd).2
    have hnotmem : g.1 ∉ gs.map Prod.fst := (List.nodup_cons.mp hnd).1
    have hsplit : (g :: gs).flatMap (groupReports runners config) =
        groupReports runners config g ++ gs.flatMap (groupReports runners config) := rfl
    rw [hsplit, List.filter_append, List.map_append, ih lang hnd']
    by_cases hg : g.1 = lang
    · subst hg
      have hfil : (groupReports runners config g).filter
          (fun r => r.language = g.1.value) = groupReports runners config g := by
        apply List.filter_eq_self.mpr
        intro r hr
        simp [groupReports_language runners config g r hr]
      rw [hfil]
      have hlk : lookupG gs g.1 = none :=
        (lookupG_none_iff_not_mem gs g.1).mpr hnotmem
      have hlkc : lookupG (g :: gs) g.1 = some g.2 := by
        simp [lookupG]
      rw [hlk, hlkc]
      have hgpair : groupReports runners config g =
          groupReports runners config (g.1, g.2) := rfl
      rw [hgpair, groupReports_map_path]
      simp
    · have hfil : (groupReports runners config g).filter
          (fun r => r.language = lang.value) = [] := by
        apply List.filter_eq_nil.mpr
        intro r hr
        have hlng := groupReports_language runners config g r hr
        simp [hlng]
        intro hc
        exact absurd (Language.value_inj g.1 lang hc) hg
      rw [hfil]
      have hlkc : lookupG (g :: gs) lang = lookupG gs lang := by
        simp [lookupG, hg]
      rw [hlkc]
      simp

/-- C4 (amended): `analyze_files` does not sort; for each language, its
reports appear in input order (stable grouping): the reports carrying a
language's tag, in output order, are exactly the input files detected as
that language, in input order — when the language has an available runner —
and the output is the concatenation of such per-language blocks. -/
theorem analyze_files_order (runners : Language → Option Runner)
    (config : CodeCopConfig) (det : LanguageDetector) (m : Matcher)
    (fps : List PyPath) (lang : Language) (hlang : lang ≠ Language.unknown) :
    ((analyze_files runners config det m fps).filter
        (fun r => r.language = lang.value)).map (·.file_path) =
      (match runners lang with
       | some runner =>
         if runner.available then
           fps.filter (fun p => detect_language det m p = some lang)
         else []
       | none => []) := by
  rw [analyze_files_eq_flatMap,
    filtered_reports runners config _ lang (nodup_keys_group_by_language det m fps),
    lookupG_group_by_language det m fps lang hlang]
  by_cases hfl : fps.filter (fun p => detect_language det m p = some lang) = []
  · rw [if_pos hfl]
    cases runners lang with
    | none => simp
    | some runner => by_cases ha : runner.available <;> simp [ha, hfl]
  · rw [if_neg hfl]

/-- C4 (counterexample): with two Python files given as `[d/b.py, d/a.py]`,
`analyze_files` reports them in input order, which differs from the stable
sort of the input paths. -/
theorem analyze_files_not_sorted :
    ((analyze_files runnersPlain config0 det0 m0 [pyB, pyA]).map (·.file_path)
        = [pyB, pyA])
    ∧ sortedPaths [pyB, pyA] = [pyA, pyB]
    ∧ ([pyB, pyA] : List PyPath) ≠ [pyA, pyB] := by
  refine ⟨by decide, ?_, by decide⟩
  have hle : ¬ (pathStr pyB ≤ pathStr pyA) := by
    intro hc
    have hc' : ("b.py" : String) ≤ "a.py" := hc
    rw [String.le_iff_toList_le] at hc'
    exact absurd hc' (by decide)
  have hred : sortedPaths [pyB, pyA] =
      if pathStr pyB ≤ pathStr pyA then [pyB, pyA] else [pyA, pyB] := rfl
  rw [hred, if_neg hle]

/-- C8: with the Python runner wrapping a raw measurement step (spec-modelled
recovery boundary), every dispatched file yields exactly one report in
order, and a file whose raw step raises is captured as a report with the
error string set, empty measurements and no violations — the batch
continues. -/
theorem adapter_error_recovery (raw : PyPath → Except String FileMetrics)
    (config : CodeCopConfig) (det : LanguageDetector) (m : Matcher)
    (fps : List PyPath) :
    ((analyze_files (runnersPy raw) config det m fps).map (·.file_path)
        = fps.filter (fun p => detect_language det m p = some Language.python))
    ∧ (∀ r ∈ analyze_files (runnersPy raw) config det m fps, ∀ msg,
        raw r.file_path = .error msg →
        r.error = some msg ∧ r.metrics = [] ∧ r.violations = []) := by
  constructor
  · have hall : ∀ r ∈ analyze_files (runnersPy raw) config det m fps,
        r.language = Language.python.value := by
      intro r hr
      rw [analyze_files_eq_flatMap] at hr
      obtain ⟨g, hg, hrg⟩ := List.mem_flatMap.mp hr
      have hlng := groupReports_language (runnersPy raw) config g r hrg
      have hpy : g.1 = Language.python := by
        cases hgl : g.1 with
        | python => rfl
        | javascript =>
          rw [groupReports_eq_none (runnersPy raw) config g (by simp [runnersPy, hgl])] at hrg
          simp at hrg
        | typescript =>
          rw [groupReports_eq_none (runnersPy raw) config g (by simp [runnersPy, hgl])] at hrg
          simp at hrg
        | unknown =>
          rw [groupReports_eq_none (runnersPy raw) config g (by simp [runnersPy, hgl])] at hrg
          simp at hrg
      rw [hpy] at hlng
      exact hlng
    have hfil : (analyze_files (runnersPy raw) config det m fps).filter
        (fun r => r.language = Language.python.value) =
        analyze_files (runnersPy raw) config det m fps :=
      List.filter_eq_self.mpr (fun r hr => by simp [hall r hr])
    have := analyze_files_order (runnersPy raw) config det m fps Language.python
      (by simp)
    rw [hfil] at this
    simpa [runnersPy] using this
  · intro r hr msg hmsg
    rw [analyze_files_eq_flatMap] at hr
    obtain ⟨g, hg, hrg⟩ := List.mem_flatMap.mp hr
    cases hrun : runnersPy raw g.1 with
    | none =>
      rw [groupReports_eq_none (runnersPy raw) config g hrun] at hrg
      simp at hrg
    | some runner =>
      cases hav : runner.available with
      | false =>
        rw [groupReports_eq_unavailable (runnersPy raw) config g runner hrun hav] at hrg
        simp at hrg
      | true =>
        rw [groupReports_eq_some (runnersPy raw) config g runner hrun hav] at hrg
        obtain ⟨fi, _, hfi⟩ := List.mem_map.mp hrg
        have hrunner : runner = { available := true, analyze := runner_of_raw raw } := by
          cases hgl : g.1 with
          | python =>
            rw [hgl] at hrun
            simp [runnersPy] at hrun
            first | exact hrun | exact hrun.symm
          | javascript => rw [hgl] at hrun; simp [runnersPy] at hrun
          | typescript => rw [hgl] at hrun; simp [runnersPy] at hrun
          | unknown => rw [hgl] at hrun; simp [runnersPy] at hrun
        have hpath : r.file_path = fi.2 := by rw [← hfi]; rfl
        rw [hpath] at hmsg
        have hfm : runner.analyze fi.2 = { metrics := [], error := some msg } := by
          rw [hrunner]
          simp [runner_of_raw, hmsg]
        rw [← hfi]
        unfold analyze_file
        rw [hfm]
        refine ⟨rfl, rfl, ?_⟩
        cases het : errTruthy (some msg) <;> simp [het, check_violations]

/-- C8 (witness): a concrete run where the raw step of `d/a.py` raises
`"parse failure"`: the report list is exactly that file with the error
captured. -/
theorem adapter_error_recovery_witness :
    ((analyze_files (runnersPy (fun _ => .error "parse failure")) config0 det0 m0
        [pyA]).map (·.file_path)
      = [pyA].filter (fun p => detect_language det0 m0 p = some Language.python))
    ∧ (∀ r ∈ analyze_files (runnersPy (fun _ => .error "parse failure")) config0
          det0 m0 [pyA], ∀ msg,
        (fun (_ : PyPath) => (Except.error "parse failure" : Except String FileMetrics))
            r.file_path = .error msg →
        r.error = some msg ∧ r.metrics = [] ∧ r.violations = []) :=
  adapter_error_recovery (fun _ => .error "parse failure") config0 det0 m0 [pyA]

/-- C10 (amended): any report produced by `analyze_files` whose error field
is truthy (non-`None` and non-empty) has an empty violations list; the
source guards with `if not file_metrics.error`, so the empty-string error is
treated as "no error" and violations are still checked. -/
theorem error_skips_violations (runners : Language → Option Runner)
    (config : CodeCopConfig) (det : LanguageDetector) (m : Matcher)
    (fps : List PyPath) :
    ∀ r ∈ analyze_files runners config det m fps,
      errTruthy r.error = true → r.violations = [] := by
  intro r hr htr
  rw [analyze_files_eq_flatMap] at hr
  obtain ⟨g, _, hrg⟩ := List.mem_flatMap.mp hr
  cases hrun : runners g.1 with
  | none =>
    rw [groupReports_eq_none runners config g hrun] at hrg
    simp at hrg
  | some runner =>
    cases hav : runner.available with
    | false =>
      rw [groupReports_eq_unavailable runners config g runner hrun hav] at hrg
      simp at hrg
    | true =>
      rw [groupReports_eq_some runners config g runner hrun hav] at hrg
      obtain ⟨fi, _, hfi⟩ := List.mem_map.mp hrg
      have herr : r.error = (runner.analyze fi.2).error := by rw [← hfi]; rfl
      rw [herr] at htr
      rw [← hfi]
      simp [analyze_file, htr]

/-- C10 (witness for the amended theorem): the report of `d/a.py` under the
always-raising runner has a truthy error and an empty violations list. -/
theorem error_skips_violations_witness :
    rBoomReport ∈ analyze_files runnersBoom config0 det0 m0 [pyA]
    ∧ errTruthy rBoomReport.error = true
    ∧ rBoomReport.violations = [] :=
  ⟨by decide, by decide,
    error_skips_violations runnersBoom config0 det0 m0 [pyA] rBoomReport
      (by decide) (by decide)⟩

/-- C10 (counterexample): with a runner returning the empty-string error and
a violating measurement, `analyze_files` produces a report whose error field
is not `None` but whose violations list is non-empty. -/
theorem error_field_set_but_violations_checked :
    ((analyze_files runnersErr config0 det0 m0 [pyA]).any
        (fun r => decide (r.error ≠ none) && decide (r.violations ≠ []))) = true := by
  decide

/-- C4 (witness for the amended theorem): the Python-filtered reports of a
two-file run are exactly the two Python input files, in input order. -/
theorem analyze_files_order_witness :
    ((analyze_files runnersPlain config0 det0 m0 [pyB, pyA]).filter
        (fun r => r.language = Language.python.value)).map (·.file_path) =
      (match runnersPlain Language.python with
       | some runner =>
         if runner.available then
           [pyB, pyA].filter (fun p => detect_language det0 m0 p = some Language.python)
         else []
       | none => []) :=
  analyze_files_order runnersPlain config0 det0 m0 [pyB, pyA] Language.python
    (by decide)

/-- C3: classification precedence — force-analyze includes everything and
disables every ignore pattern; a force-include match wins over any ignore
match; otherwise an effective-ignore match yields `Ignored`; otherwise the
extension-derived language is returned. -/
theorem classify_precedence (m : StrMatcher) (ov : ConfigOverride)
    (base_patterns : List String) (fp ext : String) :
    (ov.force_analyze = true →
        classify m ov base_patterns fp ext = .lang (extension_language ext) ∧
        get_effective_ignore_patterns ov base_patterns = [])
    ∧ (ov.include_patterns ≠ [] → m ov.include_patterns fp = true →
        classify m ov base_patterns fp ext = .lang (extension_language ext))
    ∧ (should_force_include m ov fp = false →
        get_effective_ignore_patterns ov base_patterns ≠ [] →
        m (get_effective_ignore_patterns ov base_patterns) fp = true →
        classify m ov base_patterns fp ext = .ignoredFile)
    ∧ (should_force_include m ov fp = false →
        (get_effective_ignore_patterns ov base_patterns = [] ∨
          m (get_effective_ignore_patterns ov base_patterns) fp = false) →
        classify m ov base_patterns fp ext = .lang (extension_language ext)) := by
  refine ⟨?_, ?_, ?_, ?_⟩
  · intro hfa
    constructor
    · have hsf : should_force_include m ov fp = true := by
        simp [should_force_include, hfa]
      simp [classify, hsf]
    · simp [get_effective_ignore_patterns, hfa]
  · intro hinc hm
    have hsf : should_force_include m ov fp = true := by
      unfold should_force_include
      by_cases hfa : ov.force_analyze <;> simp [hfa, hinc, hm]
    simp [classify, hsf]
  · intro hsf hne hm
    have hie : (get_effective_ignore_patterns ov base_patterns).isEmpty = false := by
      cases hp : get_effective_ignore_patterns ov base_patterns with
      | nil => exact absurd hp hne
      | cons a l => rfl
    simp [classify, hsf, hie, hm]
  · intro hsf hor
    rcases hor with he | hm
    · simp [classify, hsf, he]
    · by_cases hie : (get_effective_ignore_patterns ov base_patterns).isEmpty <;>
        simp [classify, hsf, hie, hm]

/-- C3 (witness): a path matching both a base ignore pattern and a
force-include pattern is classified with its extension-derived language. -/
theorem classify_precedence_witness :
    ovX.include_patterns ≠ []
    ∧ mEq ovX.include_patterns "x.py" = true
    ∧ mEq (get_effective_ignore_patterns ovX ["x.py"]) "x.py" = true
    ∧ classify mEq ovX ["x.py"] "x.py" ".py" = .lang (extension_language ".py") :=
  ⟨by decide, by decide, by decide,
    (classify_precedence mEq ovX ["x.py"] "x.py" ".py").2.1 (by decide) (by decide)⟩

theorem foldl_overrides_error_stable (pyFloat : String → Option Rat)
    (ts : List String) (e : String) :
    ts.foldl
        (fun acc s =>
          match acc with
          | .error e' => .error e'
          | .ok l =>
            match parse_threshold_string pyFloat s with
            | .error e' => .error e'
            | .ok p => .ok (l ++ [p]))
        (Except.error e : Except String (List (String × Rat))) = .error e := by
  induction ts with
  | nil => rfl
  | cons t ts ih => simpa using ih

theorem parse_overrides_err (pyFloat : String → Option Rat) :
    ∀ (ts : List String) (l : List (String × Rat)) (s : String), s ∈ ts →
      isErr (parse_threshold_string pyFloat s) = true →
      isErr (ts.foldl
        (fun acc s =>
          match acc with
          | .error e' => .error e'
          | .ok l' =>
            match parse_threshold_string pyFloat s with
            | .error e' => .error e'
            | .ok p => .ok (l' ++ [p]))
        (Except.ok l : Except String (List (String × Rat)))) = true := by
  intro ts
  induction ts with
  | nil => intro l s hs; simp at hs
  | cons t ts ih =>
    intro l s hs herr
    rcases List.mem_cons.mp hs with he | hm
    · subst he
      cases hp : parse_threshold_string pyFloat s with
      | error e =>
        simp only [List.foldl_cons, hp]
        rw [foldl_overrides_error_stable]
        rfl
      | ok p => rw [hp] at herr; simp [isErr] at herr
    · cases hp : parse_threshold_string pyFloat t with
      | error e =>
        simp only [List.foldl_cons, hp]
        rw [foldl_overrides_error_stable]
        rfl
      | ok p =>
        simp only [List.foldl_cons, hp]
        exact ih (l ++ [p]) s hm herr

/-- C9: threshold-override validation — a string without `'='` or with a
value Python's `float()` rejects is a hard error; an unknown metric kind is
a hard error; a value outside the metric kind's static range (for
cyclomatic complexity, anything that is not an integer in `[1, 50]`) is a
hard error; a well-formed in-range override parses successfully; and any
failing override string makes the whole pipeline return an error before any
analysis output is produced. -/
theorem threshold_override_validation (pyFloat : String → Option Rat) :
    (∀ s : String, s.toList.contains '=' = false →
        isErr (parse_threshold_string pyFloat s) = true)
    ∧ (∀ s : String, s.toList.contains '=' = true →
        pyFloat (pyStrip (pySplitFirstEq s).2) = none →
        isErr (parse_threshold_string pyFloat s) = true)
    ∧ (∀ (s : String) (v : Rat), s.toList.contains '=' = true →
        pyFloat (pyStrip (pySplitFirstEq s).2) = some v →
        pyStrip (pySplitFirstEq s).1 ∉ valid_metric_types →
        isErr (parse_threshold_string pyFloat s) = true)
    ∧ (∀ (s : String) (v : Rat), s.toList.contains '=' = true →
        pyFloat (pyStrip (pySplitFirstEq s).2) = some v →
        pyStrip (pySplitFirstEq s).1 ∈ valid_metric_types →
        validate_threshold_value (pyStrip (pySplitFirstEq s).1) v = false →
        isErr (parse_threshold_string pyFloat s) = true)
    ∧ (∀ (s : String) (v : Rat), s.toList.contains '=' = true →
        pyFloat (pyStrip (pySplitFirstEq s).2) = some v →
        pyStrip (pySplitFirstEq s).1 ∈ valid_metric_types →
        validate_threshold_value (pyStrip (pySplitFirstEq s).1) v = true →
        parse_threshold_string pyFloat s = .ok (pyStrip (pySplitFirstEq s).1, v))
    ∧ (∀ (thresholds : List String) (s : String)
          (analysis : Unit → List FileReport), s ∈ thresholds →
        isErr (parse_threshold_string pyFloat s) = true →
        isErr (run_metrics_pipeline pyFloat thresholds analysis) = true) := by
  refine ⟨?_, ?_, ?_, ?_, ?_, ?_⟩
  · intro s h
    have h' : ¬ ('=' ∈ s.data) := by simpa using h
    simp [parse_threshold_string, h', isErr]
  · intro s h hf
    have h' : ('=' ∈ s.data) := by simpa using h
    simp [parse_threshold_string, h', hf, isErr]
  · intro s v h hf hmem
    have h' : ('=' ∈ s.data) := by simpa using h
    simp [parse_threshold_string, h', hf, set_threshold, hmem, isErr, Except.map]
  · intro s v h hf hmem hval
    have h' : ('=' ∈ s.data) := by simpa using h
    simp [parse_threshold_string, h', hf, set_threshold, hmem, hval, isErr,
      Except.map]
  · intro s v h hf hmem hval
    have h' : ('=' ∈ s.data) := by simpa using h
    simp [parse_threshold_string, h', hf, set_threshold, hmem, hval, Except.map]
  · intro thresholds s analysis hs herr
    have hpo : isErr (parse_threshold_overrides pyFloat thresholds) = true :=
      parse_overrides_err pyFloat thresholds [] s hs herr
    unfold run_metrics_pipeline
    cases hp : parse_threshold_overrides pyFloat thresholds with
    | error e => rfl
    | ok l => rw [hp] at hpo; simp [isErr] at hpo

/-- C9 (witness): `"cyclomatic"` (no `'='`) errors; `"bogus=15"` (unknown
kind) errors; `"cyclomatic_complexity=15.5"` (not an integer) errors;
`"cyclomatic_complexity=15"` parses; a failing override aborts the pipeline
with no reports. -/
theorem threshold_override_validation_witness :
    isErr (parse_threshold_string pyFloatFix "cyclomatic") = true
    ∧ isErr (parse_threshold_string pyFloatFix "bogus=15") = true
    ∧ isErr (parse_threshold_string pyFloatFix "cyclomatic_complexity=15.5") = true
    ∧ parse_threshold_string pyFloatFix "cyclomatic_complexity=15"
        = .ok ("cyclomatic_complexity", 15)
    ∧ isErr (run_metrics_pipeline pyFloatFix ["cyclomatic_complexity=15.5"]
        (fun _ => [rBoomReport])) = true := by
  refine ⟨?_, ?_, ?_, ?_, ?_⟩
  · exact (threshold_override_validation pyFloatFix).1 "cyclomatic" (by decide)
  · exact (threshold_override_validation pyFloatFix).2.2.1 "bogus=15" 15
      (by decide) (by decide) (by decide)
  · exact (threshold_override_validation pyFloatFix).2.2.2.1
      "cyclomatic_complexity=15.5" (Rat.mk' 31 2 (by decide) (by decide))
      (by decide) (by decide) (by decide) (by decide)
  · have := (threshold_override_validation pyFloatFix).2.2.2.2.1
      "cyclomatic_complexity=15" 15 (by decide) (by decide) (by decide) (by decide)
    simpa using this
  · exact (threshold_override_validation pyFloatFix).2.2.2.2.2
      ["cyclomatic_complexity=15.5"] "cyclomatic_complexity=15.5"
      (fun _ => [rBoomReport]) (by decide)
      ((threshold_override_validation pyFloatFix).2.2.2.1
        "cyclomatic_complexity=15.5" (Rat.mk' 31 2 (by decide) (by decide))
        (by decide) (by decide) (by decide) (by decide))

theorem moduleWalk_eq_drop (hasInit : Dir → Bool) :
    ∀ (n : Nat) (dir : Dir), dir.length = n → ∀ j : Nat, j ≤ dir.length →
      (∀ mIdx, j < mIdx → mIdx ≤ dir.length → hasInit (dir.take mIdx) = true) →
      (j = 0 ∨ hasInit (dir.take j) = false) →
      moduleWalk hasInit dir = dir.drop j := by
  intro n
  induction n with
  | zero =>
    intro dir hlen j hj _ _
    have hd : dir = [] := List.length_eq_zero.mp hlen
    subst hd
    simp at hj
    subst hj
    simp [moduleWalk]
  | succ n ih =>
    intro dir hlen j hj hmark hstop
    have hne : dir ≠ [] := by
      intro hc
      rw [hc] at hlen
      simp at hlen
    by_cases hin : hasInit dir = true
    · have hjlt : j < dir.length := by
        rcases Nat.lt_or_ge j dir.length with hlt | hge
        · exact hlt
        · exfalso
          have hj' : j = dir.length := Nat.le_antisymm hj hge
          rcases hstop with h0 | hfail
          · rw [h0] at hj'
            have hd : dir = [] := List.length_eq_zero.mp hj'.symm
            exact hne hd
          · rw [hj', List.take_length, hin] at hfail
            exact absurd hfail (by simp)
      have hwalk : moduleWalk hasInit dir =
          moduleWalk hasInit dir.dropLast ++ [dir.getLast hne] := by
        rw [moduleWalk]
        rw [dif_neg hne, if_pos hin]
      have hdl_len : dir.dropLast.length = n := by
        rw [List.length_dropLast, hlen]
        rfl
      have hjle : j ≤ dir.dropLast.length := by
        rw [hdl_len]
        omega
      have htake : ∀ mIdx, mIdx ≤ dir.dropLast.length →
          dir.dropLast.take mIdx = dir.take mIdx := by
        intro mIdx hm
        rw [List.dropLast_eq_take, List.take_take]
        congr 1
        rw [List.length_dropLast] at hm
        omega
      have hmark' : ∀ mIdx, j < mIdx → mIdx ≤ dir.dropLast.length →
          hasInit (dir.dropLast.take mIdx) = true := by
        intro mIdx h1 h2
        rw [htake mIdx h2]
        apply hmark mIdx h1
        rw [List.length_dropLast] at h2
        omega
      have hstop' : j = 0 ∨ hasInit (dir.dropLast.take j) = false := by
        rcases hstop with h0 | hfail
        · exact Or.inl h0
        · right
          rw [htake j hjle]
          exact hfail
      rw [hwalk, ih dir.dropLast hdl_len j hjle hmark' hstop']
      rw [← List.drop_append_of_le_length hjle, List.dropLast_append_getLast hne]
    · have hwalk : moduleWalk hasInit dir = [] := by
        rw [moduleWalk]
        rw [dif_neg hne, if_neg (by simpa using hin)]
      have hj' : j = dir.length := by
        by_contra hc
        have hjlt : j < dir.length := Nat.lt_of_le_of_ne hj hc
        have hm := hmark dir.length hjlt (Nat.le_refl _)
        rw [List.take_length] at hm
        exact hin hm
      rw [hwalk, hj', List.drop_length]

theorem lookupM_append_single (ms : List (String × ModuleData)) (name : String)
    (data : ModuleData) (name' : String) :
    lookupM (ms ++ [(name, data)]) name' =
      match lookupM ms name' with
      | some x => some x
      | none => if name = name' then some data else none := by
  induction ms with
  | nil => simp [lookupM]
  | cons e es ih =>
    by_cases he : e.1 = name' <;> simp [lookupM, he, ih]

theorem lookupM_map_set (ms : List (String × ModuleData)) (name : String)
    (data : ModuleData) (name' : String) :
    lookupM (ms.map (fun e => if e.1 = name then (e.1, data) else e)) name' =
      if name = name' then (lookupM ms name').map (fun _ => data)
      else lookupM ms name' := by
  induction ms with
  | nil => simp [lookupM]
  | cons e es ih =>
    by_cases hen : e.1 = name
    · by_cases he' : e.1 = name'
      · have heq : name = name' := hen.symm.trans he'
        subst heq
        simp [lookupM, hen, he']
      · have hne : ¬ name = name' := fun hc => he' (hen.trans hc)
        simp [lookupM, hen, he', hne, ih]
    · by_cases he' : e.1 = name'
      · have hne : ¬ name = name' := fun hc => hen (he'.trans hc.symm)
        have hne' : ¬ name' = name := fun hc => hne hc.symm
        simp [lookupM, hen, he', hne, hne']
      · simp [lookupM, hen, he', ih]

theorem files_foldl_collect (mti : List String) :
    ∀ (l : List MetricResult) (dd : ModuleData),
      (l.foldl (collectMetricsModule mti) dd).files = dd.files := by
  intro l
  induction l with
  | nil => intro dd; rfl
  | cons mt l ih =>
    intro dd
    rw [List.foldl_cons, ih]
    unfold collectMetricsModule
    by_cases h1 : errTruthy mt.function_name <;>
      by_cases h2 : mt.metric_type ∈ mti <;> simp [h1, h2]

theorem lookupM_addReportToModules (hasInit : Dir → Bool) (mti : List String)
    (ms : List (String × ModuleData)) (r : FileReport) (name : String) :
    (lookupM (addReportToModules hasInit mti ms r) name).map (·.files) =
      if determine_module_name hasInit r = name then
        some ((((lookupM ms name).map (·.files)).getD []) ++ [r])
      else (lookupM ms name).map (·.files) := by
  unfold addReportToModules
  cases hl : lookupM ms (determine_module_name hasInit r) with
  | some d0 =>
    rw [if_pos (by simp [hl])]
    rw [lookupM_map_set]
    by_cases hn : determine_module_name hasInit r = name
    · subst hn
      rw [if_pos rfl, if_pos rfl, hl]
      simp [files_foldl_collect, hl]
    · rw [if_neg hn, if_neg hn]
  | none =>
    rw [if_neg (by simp [hl])]
    rw [lookupM_append_single]
    by_cases hn : determine_module_name hasInit r = name
    · subst hn
      rw [if_pos rfl, hl]
      simp [files_foldl_collect, hl, emptyModuleData]
    · rw [if_neg hn]
      cases hl' : lookupM ms name with
      | some d1 => simp [hl', hn]
      | none => simp [hl', hn]

theorem lookupM_files_fold (hasInit : Dir → Bool) (mti : List String) :
    ∀ (reports : List FileReport) (ms : List (String × ModuleData))
      (name : String),
      (lookupM (reports.foldl (addReportToModules hasInit mti) ms) name).map (·.files) =
        (match (lookupM ms name).map (·.files) with
         | some fl =>
           some (fl ++ reports.filter (fun r => determine_module_name hasInit r = name))
         | none =>
           if reports.filter (fun r => determine_module_name hasInit r = name) = []
           then none
           else some (reports.filter (fun r => determine_module_name hasInit r = name))) := by
  intro reports
  induction reports with
  | nil =>
    intro ms name
    cases hl : (lookupM ms name).map (·.files) <;> simp [hl]
  | cons r reports ih =>
    intro ms name
    rw [List.foldl_cons, ih]
    rw [lookupM_addReportToModules]
    by_cases hn : determine_module_name hasInit r = name
    · rw [if_pos hn]
      cases hl : (lookupM ms name).map (·.files) with
      | some fl => simp [List.filter_cons, hn, hl]
      | none => simp [List.filter_cons, hn, hl]
    · rw [if_neg hn]
      simp [List.filter_cons, hn]

/-- C7: `determine_module_name` walks the file's parent directories upward
while each carries the package marker `__init__.py`, stopping at the first
ancestor lacking it, so the file is grouped under the dotted path of exactly
the marker directories (a file below the outermost marker chain is grouped
under those markers); a file with no marked parent falls to the sentinel
`"<root>"`; and module grouping is flat: a module's file group is exactly
the reports whose module name equals it, with no propagation between
groups. -/
theorem module_rollup :
    (∀ (hasInit : Dir → Bool) (r : FileReport) (j : Nat),
        j ≤ r.file_path.dir.length →
        (∀ mIdx, j < mIdx → mIdx ≤ r.file_path.dir.length →
          hasInit (r.file_path.dir.take mIdx) = true) →
        (j = 0 ∨ hasInit (r.file_path.dir.take j) = false) →
        determine_module_name hasInit r =
          (if r.file_path.dir.drop j = [] then "<root>"
           else String.intercalate "." (r.file_path.dir.drop j)))
    ∧ (∀ (hasInit : Dir → Bool) (reports : List FileReport)
          (mti : List String) (name : String),
        (lookupM (group_reports_by_module hasInit reports mti) name).map (·.files) =
          (if reports.filter (fun r => determine_module_name hasInit r = name) = []
           then none
           else some (reports.filter (fun r => determine_module_name hasInit r = name)))) := by
  constructor
  · intro hasInit r j hj hmark hstop
    unfold determine_module_name
    rw [moduleWalk_eq_drop hasInit r.file_path.dir.length r.file_path.dir rfl j hj
      hmark hstop]
  · intro hasInit reports mti name
    unfold group_reports_by_module
    rw [lookupM_files_fold]
    simp [lookupM]

theorem isUnder_iff_take : ∀ (d l : Dir), isUnder d l = true ↔ l.take d.length = d := by
  intro d
  induction d with
  | nil => intro l; simp [isUnder]
  | cons a as ih =>
    intro l
    cases l with
    | nil => simp [isUnder]
    | cons b bs =>
      simp only [isUnder, List.length_cons, List.take_succ_cons, List.cons.injEq,
        Bool.and_eq_true, beq_iff_eq]
      rw [ih bs]
      constructor
      · rintro ⟨h1, h2⟩; exact ⟨h1.symm, h2⟩
      · rintro ⟨h1, h2⟩; exact ⟨h1.symm, h2⟩

theorem isUnder_length {d l : Dir} (h : isUnder d l = true) : d.length ≤ l.length := by
  have ht := (isUnder_iff_take d l).mp h
  have hlen := congrArg List.length ht
  rw [List.length_take] at hlen
  omega

theorem isUnder_refl (l : Dir) : isUnder l l = true := by
  rw [isUnder_iff_take, List.take_length]

theorem isUnder_nil_iff (d : Dir) : isUnder d [] = true ↔ d = [] := by
  cases d <;> simp [isUnder]

theorem proper_under_split (d current : Dir) (hne : current ≠ []) :
    (isUnder d current = true ∧ d ≠ current) ↔
      (d = current.dropLast ∨
        (isUnder d current.dropLast = true ∧ d ≠ current.dropLast)) := by
  constructor
  · rintro ⟨hu, hdne⟩
    have ht := (isUnder_iff_take d current).mp hu
    have hlen : d.length ≤ current.length := isUnder_length hu
    have hlt : d.length < current.length := by
      rcases Nat.lt_or_ge d.length current.length with h | h
      · exact h
      · exfalso
        have hl : d.length = current.length := Nat.le_antisymm hlen h
        rw [hl, List.take_length] at ht
        exact hdne ht.symm
    by_cases hl : d.length = current.length - 1
    · left
      rw [List.dropLast_eq_take, ← hl]
      exact ht.symm
    · right
      constructor
      · rw [isUnder_iff_take, List.dropLast_eq_take, List.take_take,
          Nat.min_eq_left (by omega)]
        exact ht
      · intro hc
        apply hl
        rw [hc, List.length_dropLast]
  · rintro (he | ⟨hu, hdne⟩)
    · subst he
      constructor
      · rw [isUnder_iff_take, List.length_dropLast, ← List.dropLast_eq_take]
      · intro hc
        have hlen := congrArg List.length hc
        rw [List.length_dropLast] at hlen
        have hpos : 0 < current.length := List.length_pos.mpr hne
        omega
    · have hdl : d.length ≤ current.dropLast.length := isUnder_length hu
      rw [List.length_dropLast] at hdl
      constructor
      · rw [isUnder_iff_take] at hu ⊢
        rw [List.dropLast_eq_take, List.take_take,
          Nat.min_eq_left (by omega)] at hu
        exact hu
      · intro hc
        subst hc
        have hpos : 0 < d.length := List.length_pos.mpr hne
        omega

theorem dsFind_append_single (ds : DirStats) (d : Dir) (data : DirData)
    (d' : Dir) :
    dsFind (ds ++ [(d, data)]) d' =
      match dsFind ds d' with
      | some x => some x
      | none => if d = d' then some data else none := by
  induction ds with
  | nil => rfl
  | cons e es ih =>
    have hcons : (e :: es) ++ [(d, data)] = e :: (es ++ [(d, data)]) := rfl
    rw [hcons]
    by_cases he : e.1 = d'
    · rw [show dsFind (e :: (es ++ [(d, data)])) d' = some e.2 from by
        simp [dsFind, he]]
      rw [show dsFind (e :: es) d' = some e.2 from by simp [dsFind, he]]
    · rw [show dsFind (e :: (es ++ [(d, data)])) d' = dsFind (es ++ [(d, data)]) d'
        from by simp [dsFind, he]]
      rw [show dsFind (e :: es) d' = dsFind es d' from by simp [dsFind, he]]
      exact ih

theorem dsFind_map_set (ds : DirStats) (d : Dir) (data : DirData) (d' : Dir) :
    dsFind (ds.map (fun e => if e.1 = d then (e.1, data) else e)) d' =
      if d = d' then (dsFind ds d').map (fun _ => data)
      else dsFind ds d' := by
  induction ds with
  | nil => simp [dsFind]
  | cons e es ih =>
    by_cases hed : e.1 = d
    · by_cases he' : e.1 = d'
      · have heq : d = d' := hed.symm.trans he'
        subst heq
        simp [dsFind, hed, he']
      · have hne : ¬ d = d' := fun hc => he' (hed.trans hc)
        simp [dsFind, hed, he', hne, ih]
    · by_cases he' : e.1 = d'
      · have hne : ¬ d = d' := fun hc => hed (he'.trans hc.symm)
        have hne' : ¬ d' = d := fun hc => hne hc.symm
        simp [dsFind, hed, he', hne, hne']
      · simp [dsFind, hed, he', ih]

theorem dsFind_map_val (f : DirData → DirData) (ds : DirStats) (d : Dir) :
    dsFind (ds.map (fun e => (e.1, f e.2))) d = (dsFind ds d).map f := by
  induction ds with
  | nil => simp [dsFind]
  | cons e es ih =>
    by_cases he : e.1 = d <;> simp [dsFind, he, ih]

theorem dsFind_none_iff_not_mem (ds : DirStats) (d : Dir) :
    dsFind ds d = none ↔ d ∉ keysOf ds := by
  induction ds with
  | nil => simp [dsFind, keysOf]
  | cons e es ih =>
    by_cases he : e.1 = d
    · have hfind : dsFind (e :: es) d = some e.2 := by simp [dsFind, he]
      have hmem : d ∈ keysOf (e :: es) := by
        simp only [keysOf, List.map_cons, List.mem_cons]
        exact Or.inl he.symm
      rw [hfind]
      simp [hmem]
    · rw [show dsFind (e :: es) d = dsFind es d from by simp [dsFind, he], ih]
      simp only [keysOf, List.map_cons, List.mem_cons]
      constructor
      · intro hn hor
        rcases hor with h1 | h2
        · exact he h1.symm
        · exact hn h2
      · intro hn hm
        exact hn (Or.inr hm)

theorem dsHas_iff_mem (ds : DirStats) (d : Dir) :
    dsHas ds d = true ↔ d ∈ keysOf ds := by
  unfold dsHas
  cases hf : dsFind ds d with
  | none =>
    simp only [Option.isSome_none, Bool.false_eq_true, false_iff]
    exact (dsFind_none_iff_not_mem ds d).mp hf
  | some data =>
    simp only [Option.isSome_some, true_iff]
    by_contra hc
    rw [(dsFind_none_iff_not_mem ds d).mpr hc] at hf
    exact Option.noConfusion hf

theorem dsGet_set (ds : DirStats) (d : Dir) (data : DirData) (d' : Dir) :
    dsGet (dsSet ds d data) d' = if d' = d then data else dsGet ds d' := by
  unfold dsSet
  cases hh : dsHas ds d with
  | true =>
    rw [if_pos rfl]
    unfold dsGet
    rw [dsFind_map_set]
    by_cases he : d' = d
    · subst he
      rw [if_pos rfl, if_pos rfl]
      unfold dsHas at hh
      cases hf : dsFind ds d' with
      | none => rw [hf] at hh; simp at hh
      | some x => simp
    · rw [if_neg (fun hc : d = d' => he hc.symm), if_neg he]
  | false =>
    rw [if_neg (by simp [hh])]
    unfold dsGet
    rw [dsFind_append_single]
    by_cases he : d' = d
    · subst he
      have hnone : dsFind ds d' = none := by
        unfold dsHas at hh
        cases hf : dsFind ds d' with
        | none => rfl
        | some x => rw [hf] at hh; simp at hh
      rw [hnone, if_pos rfl]
      simp
    · rw [if_neg he]
      cases hf : dsFind ds d' with
      | some x => rfl
      | none =>
        show (if d = d' then some data else none).getD emptyDirData
            = (none : Option DirData).getD emptyDirData
        rw [if_neg (fun hc : d = d' => he hc.symm)]

theorem keysOf_set (ds : DirStats) (d : Dir) (data : DirData) :
    keysOf (dsSet ds d data) =
      if dsHas ds d then keysOf ds else keysOf ds ++ [d] := by
  unfold dsSet
  cases hh : dsHas ds d with
  | true =>
    rw [if_pos rfl, if_pos rfl]
    unfold keysOf
    rw [List.map_map]
    congr 1
    funext e
    by_cases he : e.1 = d <;> simp [he]
  | false => simp [keysOf]

theorem keysOf_set_nodup (ds : DirStats) (d : Dir) (data : DirData)
    (h : (keysOf ds).Nodup) : (keysOf (dsSet ds d data)).Nodup := by
  rw [keysOf_set]
  cases hh : dsHas ds d with
  | true => simpa using h
  | false =>
    have hnm : d ∉ keysOf ds := by
      intro hc
      rw [(dsHas_iff_mem ds d).mpr hc] at hh
      exact Bool.noConfusion hh
    simp [List.nodup_append, h, hnm]

theorem dsGet_ensure (ds : DirStats) (p : Dir) (d : Dir) :
    dsGet (ensure_parent_exists ds p) d = dsGet ds d := by
  unfold ensure_parent_exists
  cases hh : dsHas ds p with
  | true => rw [if_pos rfl]
  | false =>
    rw [if_neg (by simp)]
    unfold dsGet
    rw [dsFind_append_single]
    cases hf : dsFind ds d with
    | some x => simp
    | none =>
      by_cases he : p = d
      · subst he
        rw [if_pos rfl]
        simp
      · simp [he]

theorem keysOf_ensure_nodup (ds : DirStats) (p : Dir)
    (h : (keysOf ds).Nodup) : (keysOf (ensure_parent_exists ds p)).Nodup := by
  unfold ensure_parent_exists
  cases hh : dsHas ds p with
  | true => simpa using h
  | false =>
    rw [if_neg (by simp)]
    have hnm : p ∉ keysOf ds := by
      intro hc
      rw [(dsHas_iff_mem ds p).mpr hc] at hh
      exact Bool.noConfusion hh
    have hk : keysOf (ds ++ [(p, emptyDirData)]) = keysOf ds ++ [p] := by
      simp [keysOf]
    rw [hk]
    simp [List.nodup_append, h, hnm]

theorem dsGet_aggregate (ds : DirStats) (parent child : Dir) (d : Dir) :
    dsGet (aggregate_child_to_parent ds parent child) d =
      if d = parent then
        { dsGet ds parent with
          all_files := (dsGet ds parent).all_files ++ (dsGet ds child).direct_files
          function_names :=
            snUnion (dsGet ds parent).function_names (dsGet ds child).function_names
          metrics := mExtend (dsGet ds parent).metrics (dsGet ds child).metrics }
      else dsGet ds d := by
  unfold aggregate_child_to_parent
  rw [dsGet_set]

theorem directOf_aggregate (ds : DirStats) (parent child : Dir) (d : Dir) :
    directOf (aggregate_child_to_parent ds parent child) d = directOf ds d := by
  unfold directOf
  rw [dsGet_aggregate]
  by_cases he : d = parent
  · subst he; rw [if_pos rfl]
  · rw [if_neg he]

theorem allOf_aggregate_step (ds : DirStats) (parent child : Dir) (d : Dir) :
    allOf (aggregate_child_to_parent ds parent child) d =
      if d = parent then allOf ds d ++ directOf ds child else allOf ds d := by
  unfold allOf directOf
  rw [dsGet_aggregate]
  by_cases he : d = parent
  · subst he; rw [if_pos rfl, if_pos rfl]
  · rw [if_neg he, if_neg he]

theorem keysOf_aggregate_nodup (ds : DirStats) (parent child : Dir)
    (h : (keysOf ds).Nodup) :
    (keysOf (aggregate_child_to_parent ds parent child)).Nodup := by
  unfold aggregate_child_to_parent
  exact keysOf_set_nodup _ _ _ h

theorem dirfold_preserved (mti : List String) :
    ∀ (l : List MetricResult) (dd : DirData),
      (l.foldl (collectMetricsDir mti) dd).direct_files = dd.direct_files ∧
      (l.foldl (collectMetricsDir mti) dd).all_files = dd.all_files := by
  intro l
  induction l with
  | nil => intro dd; exact ⟨rfl, rfl⟩
  | cons mt l ih =>
    intro dd
    rw [List.foldl_cons]
    constructor
    · rw [(ih (collectMetricsDir mti dd mt)).1]
      unfold collectMetricsDir
      by_cases h1 : errTruthy mt.function_name <;>
        by_cases h2 : mt.metric_type ∈ mti <;> simp [h1, h2]
    · rw [(ih (collectMetricsDir mti dd mt)).2]
      unfold collectMetricsDir
      by_cases h1 : errTruthy mt.function_name <;>
        by_cases h2 : mt.metric_type ∈ mti <;> simp [h1, h2]

theorem propagateLoop_directOf :
    ∀ (n : Nat) (current : Dir), current.length = n →
      ∀ (ds : DirStats) (dp d : Dir),
        directOf (propagateLoop ds dp current) d = directOf ds d := by
  intro n
  induction n with
  | zero =>
    intro current hlen ds dp d
    have hc : current = [] := List.length_eq_zero.mp hlen
    subst hc
    rw [propagateLoop, dif_pos rfl]
  | succ n ih =>
    intro current hlen ds dp d
    have hne : current ≠ [] := by
      intro hc
      rw [hc] at hlen
      simp at hlen
    rw [propagateLoop, dif_neg hne]
    rw [ih current.dropLast (by rw [List.length_dropLast, hlen]; rfl)]
    rw [directOf_aggregate]
    unfold directOf
    rw [dsGet_ensure]

theorem propagateLoop_allOf :
    ∀ (n : Nat) (current : Dir), current.length = n →
      ∀ (ds : DirStats) (dp d : Dir),
        allOf (propagateLoop ds dp current) d =
          allOf ds d ++
            (if isUnder d current = true ∧ d ≠ current then directOf ds dp else []) := by
  intro n
  induction n with
  | zero =>
    intro current hlen ds dp d
    have hc : current = [] := List.length_eq_zero.mp hlen
    subst hc
    rw [propagateLoop, dif_pos rfl]
    by_cases hd : d = []
    · rw [if_neg (by rintro ⟨_, hx⟩; exact hx hd)]
      simp
    · rw [if_neg (by rintro ⟨hu, _⟩; exact hd ((isUnder_nil_iff d).mp hu))]
      simp
  | succ n ih =>
    intro current hlen ds dp d
    have hne : current ≠ [] := by
      intro hc
      rw [hc] at hlen
      simp at hlen
    rw [propagateLoop, dif_neg hne]
    have hdl : current.dropLast.length = n := by
      rw [List.length_dropLast, hlen]
      rfl
    rw [ih current.dropLast hdl]
    have hdir : directOf
        (aggregate_child_to_parent (ensure_parent_exists ds current.dropLast)
          current.dropLast dp) dp = directOf ds dp := by
      rw [directOf_aggregate]
      unfold directOf
      rw [dsGet_ensure]
    have hall : allOf
        (aggregate_child_to_parent (ensure_parent_exists ds current.dropLast)
          current.dropLast dp) d =
        if d = current.dropLast then allOf ds d ++ directOf ds dp
        else allOf ds d := by
      rw [allOf_aggregate_step]
      unfold allOf directOf
      simp only [dsGet_ensure]
    rw [hdir, hall]
    by_cases hdp : d = current.dropLast
    · rw [if_pos hdp,
        if_neg (by rintro ⟨_, hx⟩; exact hx hdp),
        if_pos ((proper_under_split d current hne).mpr (Or.inl hdp))]
      simp
    · rw [if_neg hdp]
      by_cases hprop : isUnder d current.dropLast = true ∧ d ≠ current.dropLast
      · rw [if_pos hprop,
          if_pos ((proper_under_split d current hne).mpr (Or.inr hprop))]
      · rw [if_neg hprop,
          if_neg (by
            intro hcur
            rcases (proper_under_split d current hne).mp hcur with h1 | h2
            · exact hdp h1
            · exact hprop h2)]

theorem foldProp_directOf :
    ∀ (L : List Dir) (ds : DirStats) (d : Dir),
      directOf (L.foldl propagate_stats_to_parents ds) d = directOf ds d := by
  intro L
  induction L with
  | nil => intro ds d; rfl
  | cons c L ih =>
    intro ds d
    rw [List.foldl_cons, ih]
    unfold propagate_stats_to_parents
    exact propagateLoop_directOf c.length c rfl ds c d

theorem foldProp_allOf :
    ∀ (L : List Dir) (ds : DirStats) (d : Dir),
      allOf (L.foldl propagate_stats_to_parents ds) d =
        allOf ds d ++
          L.flatMap (fun c => if isUnder d c = true ∧ d ≠ c then directOf ds c else []) := by
  intro L
  induction L with
  | nil => intro ds d; simp
  | cons c L ih =>
    intro ds d
    rw [List.foldl_cons, ih]
    have h2 : ∀ c', directOf (propagate_stats_to_parents ds c) c' = directOf ds c' :=
      fun c' => propagateLoop_directOf c.length c rfl ds c c'
    simp only [h2]
    have h1 : allOf (propagate_stats_to_parents ds c) d =
        allOf ds d ++ (if isUnder d c = true ∧ d ≠ c then directOf ds c else []) :=
      propagateLoop_allOf c.length c rfl ds c d
    rw [h1, List.append_assoc]
    rfl

theorem dsGet_cons (a : Dir) (b : DirData) (t : DirStats) (d : Dir) :
    dsGet ((a, b) :: t) d = if a = d then b else dsGet t d := by
  by_cases h : a = d
  · rw [if_pos h]
    unfold dsGet
    rw [show dsFind ((a, b) :: t) d = some b from by simp [dsFind, h]]
    rfl
  · rw [if_neg h]
    unfold dsGet
    rw [show dsFind ((a, b) :: t) d = dsFind t d from by simp [dsFind, h]]

theorem dsGet_finalize (ds : DirStats) (d : Dir) :
    dsGet (finalize_all_files ds) d =
      { dsGet ds d with
        all_files := (dsGet ds d).all_files ++ (dsGet ds d).direct_files } := by
  induction ds with
  | nil => rfl
  | cons e es ih =>
    rw [show finalize_all_files (e :: es) =
      (e.1, { e.2 with all_files := e.2.all_files ++ e.2.direct_files }) ::
        finalize_all_files es from rfl]
    rw [show (e : Dir × DirData) = (e.1, e.2) from rfl, dsGet_cons, dsGet_cons]
    by_cases he : e.1 = d
    · rw [if_pos he, if_pos he]
    · rw [if_neg he, if_neg he, ih]

theorem allOf_finalize (ds : DirStats) (d : Dir) :
    allOf (finalize_all_files ds) d = allOf ds d ++ directOf ds d := by
  unfold allOf directOf
  rw [dsGet_finalize]

theorem keysOf_finalize (ds : DirStats) : keysOf (finalize_all_files ds) = keysOf ds := by
  induction ds with
  | nil => rfl
  | cons e es ih =>
    rw [show finalize_all_files (e :: es) =
      (e.1, { e.2 with all_files := e.2.all_files ++ e.2.direct_files }) ::
        finalize_all_files es from rfl]
    unfold keysOf at ih ⊢
    rw [List.map_cons, List.map_cons, ih]

theorem build_step_direct (mti : List String) (ds : DirStats) (r : FileReport)
    (d : Dir) :
    directOf (addReportToTree mti ds r) d =
      if d = r.file_path.dir then directOf ds d ++ [r] else directOf ds d := by
  unfold addReportToTree directOf
  rw [dsGet_set]
  by_cases he : d = r.file_path.dir
  · rw [if_pos he, if_pos he, (dirfold_preserved mti r.metrics _).1, he]
  · rw [if_neg he, if_neg he]

theorem build_step_all (mti : List String) (ds : DirStats) (r : FileReport)
    (d : Dir) :
    allOf (addReportToTree mti ds r) d = allOf ds d := by
  unfold addReportToTree allOf
  rw [dsGet_set]
  by_cases he : d = r.file_path.dir
  · rw [if_pos he, (dirfold_preserved mti r.metrics _).2, he]
  · rw [if_neg he]

theorem build_fold_direct (mti : List String) :
    ∀ (reports : List FileReport) (ds : DirStats) (d : Dir),
      directOf (reports.foldl (addReportToTree mti) ds) d =
        directOf ds d ++ reports.filter (fun r => r.file_path.dir = d) := by
  intro reports
  induction reports with
  | nil => intro ds d; simp
  | cons r rs ih =>
    intro ds d
    rw [List.foldl_cons, ih, build_step_direct]
    by_cases hrd : r.file_path.dir = d
    · rw [if_pos hrd.symm, List.filter_cons_of_pos (by simp [hrd])]
      simp
    · rw [if_neg (fun hc => hrd hc.symm),
        List.filter_cons_of_neg (by simp [hrd])]

theorem build_fold_all (mti : List String) :
    ∀ (reports : List FileReport) (ds : DirStats) (d : Dir),
      allOf (reports.foldl (addReportToTree mti) ds) d = allOf ds d := by
  intro reports
  induction reports with
  | nil => intro ds d; rfl
  | cons r rs ih =>
    intro ds d
    rw [List.foldl_cons, ih, build_step_all]

theorem build_fold_keys_nodup (mti : List String) :
    ∀ (reports : List FileReport) (ds : DirStats),
      (keysOf ds).Nodup →
      (keysOf (reports.foldl (addReportToTree mti) ds)).Nodup := by
  intro reports
  induction reports with
  | nil => intro ds h; exact h
  | cons r rs ih =>
    intro ds h
    rw [List.foldl_cons]
    apply ih
    unfold addReportToTree
    exact keysOf_set_nodup _ _ _ h

theorem keys_mem_set (ds : DirStats) (d : Dir) (data : DirData) (c : Dir) :
    c ∈ keysOf (dsSet ds d data) ↔ c ∈ keysOf ds ∨ c = d := by
  rw [keysOf_set]
  cases hh : dsHas ds d with
  | true =>
    simp only [if_pos]
    constructor
    · exact fun h => Or.inl h
    · rintro (h | h)
      · exact h
      · rw [h]
        exact (dsHas_iff_mem ds d).mp hh
  | false =>
    rw [if_neg (by simp)]
    simp

theorem build_fold_keys_mem (mti : List String) :
    ∀ (reports : List FileReport) (ds : DirStats) (c : Dir),
      c ∈ keysOf (reports.foldl (addReportToTree mti) ds) ↔
        c ∈ keysOf ds ∨ ∃ r ∈ reports, r.file_path.dir = c := by
  intro reports
  induction reports with
  | nil => intro ds c; simp
  | cons r rs ih =>
    intro ds c
    rw [List.foldl_cons, ih]
    have hstep : c ∈ keysOf (addReportToTree mti ds r) ↔
        c ∈ keysOf ds ∨ c = r.file_path.dir := by
      unfold addReportToTree
      exact keys_mem_set _ _ _ c
    rw [hstep]
    constructor
    · rintro ((h | h) | ⟨r', hr', hc⟩)
      · exact Or.inl h
      · exact Or.inr ⟨r, List.mem_cons_self r rs, h.symm⟩
      · exact Or.inr ⟨r', List.mem_cons_of_mem r hr', hc⟩
    · rintro (h | ⟨r', hr', hc⟩)
      · exact Or.inl (Or.inl h)
      · rcases List.mem_cons.mp hr' with he | hm
        · subst he
          exact Or.inl (Or.inr hc.symm)
        · exact Or.inr ⟨r', hm, hc⟩

theorem count_flatMap {α β : Type} [DecidableEq β] (f : α → List β) (x : β) :
    ∀ L : List α, ((L.flatMap f).count x) = (L.map (fun c => (f c).count x)).sum := by
  intro L
  induction L with
  | nil => simp
  | cons c L ih =>
    rw [show (c :: L).flatMap f = f c ++ L.flatMap f from rfl,
      List.count_append, ih]
    simp

theorem count_filter_eq {α : Type} [DecidableEq α] (p : α → Bool) (x : α) :
    ∀ l : List α, (l.filter p).count x = if p x = true then l.count x else 0 := by
  intro l
  induction l with
  | nil => simp
  | cons a l ih =>
    by_cases hpa : p a = true
    · rw [List.filter_cons_of_pos hpa]
      by_cases hax : a = x
      · subst hax
        rw [if_pos hpa] at ih ⊢
        simp [List.count_cons, ih, hpa]
      · simp [List.count_cons, ih, hax]
    · rw [List.filter_cons_of_neg (by simpa using hpa)]
      by_cases hax : a = x
      · subst hax
        rw [ih, if_neg hpa, if_neg hpa]
      · rw [ih]
        by_cases hpx : p x = true <;>
          simp [hpx, List.count_cons, hax]

theorem sum_indicator_single (P : Dir → Prop) [DecidablePred P] (target : Dir)
    (cnt : Nat) :
    ∀ L : List Dir, L.Nodup →
      (L.map (fun c => if P c ∧ target = c then cnt else 0)).sum =
        (if P target ∧ target ∈ L then cnt else 0) := by
  intro L
  induction L with
  | nil => simp
  | cons c L ih =>
    intro hnd
    have hnm : c ∉ L := (List.nodup_cons.mp hnd).1
    have hnd' : L.Nodup := (List.nodup_cons.mp hnd).2
    rw [List.map_cons, List.sum_cons, ih hnd']
    by_cases ht : target = c
    · subst ht
      rw [if_neg (show ¬ (P target ∧ target ∈ L) from fun h => hnm h.2)]
      by_cases hp : P target
      · rw [if_pos (show P target ∧ target = target from ⟨hp, rfl⟩),
          if_pos (show P target ∧ target ∈ target :: L from
            ⟨hp, List.mem_cons_self target L⟩)]
        simp
      · rw [if_neg (show ¬ (P target ∧ target = target) from fun h => hp h.1),
          if_neg (show ¬ (P target ∧ target ∈ target :: L) from fun h => hp h.1)]
    · rw [if_neg (show ¬ (P c ∧ target = c) from fun h => ht h.2)]
      have hmem : (target ∈ c :: L) ↔ target ∈ L := by
        simp [List.mem_cons, ht]
      by_cases hrest : P target ∧ target ∈ L
      · rw [if_pos hrest, if_pos (show P target ∧ target ∈ c :: L from
          ⟨hrest.1, hmem.mpr hrest.2⟩)]
        simp
      · rw [if_neg hrest,
          if_neg (show ¬ (P target ∧ target ∈ c :: L) from
            fun h => hrest ⟨h.1, hmem.mp h.2⟩)]

theorem allOf_rollup_count (reports : List FileReport) (mti : List String)
    (d : Dir) (x : FileReport) :
    (allOf (aggregate_directory_tree_upward
        (build_directory_tree_structure reports mti)) d).count x =
      (reports.filter (fun r => isUnder d r.file_path.dir)).count x := by
  unfold aggregate_directory_tree_upward
  rw [allOf_finalize, foldProp_allOf, foldProp_directOf, List.count_append]
  have hall0 : allOf (build_directory_tree_structure reports mti) d = [] := by
    unfold build_directory_tree_structure
    rw [build_fold_all]
    rfl
  have hdir : ∀ c, directOf (build_directory_tree_structure reports mti) c =
      reports.filter (fun r => r.file_path.dir = c) := by
    intro c
    unfold build_directory_tree_structure
    rw [build_fold_direct]
    rfl
  rw [hall0, List.nil_append, count_flatMap]
  have hterm : ∀ c : Dir,
      ((if isUnder d c = true ∧ d ≠ c
          then directOf (build_directory_tree_structure reports mti) c
          else []).count x) =
        (if (isUnder d c = true ∧ d ≠ c) ∧ x.file_path.dir = c
          then reports.count x else 0) := by
    intro c
    by_cases hcnd : isUnder d c = true ∧ d ≠ c
    · rw [if_pos hcnd, hdir c, count_filter_eq]
      by_cases hx : x.file_path.dir = c
      · rw [if_pos (by simpa using hx), if_pos ⟨hcnd, hx⟩]
      · rw [if_neg (by simpa using hx), if_neg (by rintro ⟨_, hc⟩; exact hx hc)]
    · rw [if_neg hcnd, if_neg (by rintro ⟨hc, _⟩; exact hcnd hc)]
      rfl
  simp only [hterm]
  have hnodup : ((build_directory_tree_structure reports mti).map Prod.fst).Nodup := by
    have hb := build_fold_keys_nodup mti reports [] (by simp [keysOf])
    unfold build_directory_tree_structure at *
    exact hb
  have hperm := List.mergeSort_perm
    ((build_directory_tree_structure reports mti).map Prod.fst)
    (fun a b => decide (b.length ≤ a.length))
  have hsortnd : ((build_directory_tree_structure reports mti).map
      Prod.fst).mergeSort (fun a b => decide (b.length ≤ a.length)) |>.Nodup :=
    hperm.nodup_iff.mpr hnodup
  rw [sum_indicator_single (fun c => isUnder d c = true ∧ d ≠ c)
    x.file_path.dir (reports.count x) _ hsortnd]
  have hmem_iff : x.file_path.dir ∈
      ((build_directory_tree_structure reports mti).map Prod.fst).mergeSort
        (fun a b => decide (b.length ≤ a.length)) ↔
      ∃ r ∈ reports, r.file_path.dir = x.file_path.dir := by
    rw [hperm.mem_iff]
    show x.file_path.dir ∈ keysOf (build_directory_tree_structure reports mti) ↔ _
    unfold build_directory_tree_structure
    rw [build_fold_keys_mem mti reports [] x.file_path.dir]
    constructor
    · rintro (h | h)
      · exact absurd h (by simp [keysOf])
      · exact h
    · exact fun h => Or.inr h
  rw [hdir d, count_filter_eq, count_filter_eq]
  generalize hLg : ((build_directory_tree_structure reports mti).map
      Prod.fst).mergeSort (fun a b => decide (b.length ≤ a.length)) = L at hmem_iff ⊢
  by_cases hxd : x.file_path.dir = d
  · rw [if_neg (show ¬ ((isUnder d x.file_path.dir = true ∧ d ≠ x.file_path.dir) ∧
        x.file_path.dir ∈ L) from fun h => h.1.2 hxd.symm),
      if_pos (decide_eq_true hxd),
      if_pos (show isUnder d x.file_path.dir = true from by
        rw [hxd]; exact isUnder_refl d),
      Nat.zero_add]
  · rw [if_neg (show ¬ (decide (x.file_path.dir = d) = true) from
        fun hc => hxd (of_decide_eq_true hc)), Nat.add_zero]
    by_cases hund : isUnder d x.file_path.dir = true
    · rw [if_pos hund]
      by_cases hxr : x ∈ reports
      · rw [if_pos (show (isUnder d x.file_path.dir = true ∧ d ≠ x.file_path.dir) ∧
            x.file_path.dir ∈ L from
          ⟨⟨hund, fun hc => hxd hc.symm⟩, hmem_iff.mpr ⟨x, hxr, rfl⟩⟩)]
      · rw [List.count_eq_zero.mpr hxr, ite_self]
    · rw [if_neg hund,
        if_neg (show ¬ ((isUnder d x.file_path.dir = true ∧ d ≠ x.file_path.dir) ∧
            x.file_path.dir ∈ L) from fun h => hund h.1.1)]

theorem rdf_aux :
    ∀ (l acc : List FileReport),
      (((acc ++ l).map (fun r => r.rid)).Nodup) →
      l.foldl
        (fun acc r => if acc.any (fun x => x.rid = r.rid) then acc else acc ++ [r])
        acc = acc ++ l := by
  intro l
  induction l with
  | nil => intro acc _; simp
  | cons r l ih =>
    intro acc hnd
    rw [List.foldl_cons]
    have hsplit : (acc ++ r :: l).map (fun r => r.rid) =
        acc.map (fun r => r.rid) ++ (r.rid :: l.map (fun r => r.rid)) := by
      simp
    rw [hsplit] at hnd
    have hdisj := (List.nodup_append.mp hnd).2.2
    have hnotin : ¬ (acc.any (fun x => x.rid = r.rid) = true) := by
      intro hc
      obtain ⟨x, hx, hxr⟩ := List.any_eq_true.mp hc
      have h1 : r.rid ∈ acc.map (fun r => r.rid) := by
        rw [show r.rid = x.rid from (of_decide_eq_true hxr).symm]
        exact List.mem_map_of_mem _ hx
      exact hdisj h1 (List.mem_cons_self _ _)
    rw [if_neg hnotin]
    have hres := ih (acc ++ [r]) (by
      rw [show (acc ++ [r]) ++ l = acc ++ r :: l from by simp, hsplit]
      exact hnd)
    rw [hres]
    simp

/-- Pairwise-distinct identities make the de-duplication guard a no-op. -/
theorem remove_duplicate_files_eq_self (l : List FileReport)
    (h : (l.map (fun r => r.rid)).Nodup) : remove_duplicate_files l = l := by
  unfold remove_duplicate_files
  have hres := rdf_aux l [] (by simpa using h)
  simpa using hres

theorem propagateLoop_keys_nodup :
    ∀ (n : Nat) (current : Dir), current.length = n →
      ∀ (ds : DirStats) (dp : Dir), (keysOf ds).Nodup →
        (keysOf (propagateLoop ds dp current)).Nodup := by
  intro n
  induction n with
  | zero =>
    intro current hlen ds dp h
    have hc : current = [] := List.length_eq_zero.mp hlen
    subst hc
    rw [propagateLoop, dif_pos rfl]
    exact h
  | succ n ih =>
    intro current hlen ds dp h
    have hne : current ≠ [] := by
      intro hc
      rw [hc] at hlen
      simp at hlen
    rw [propagateLoop, dif_neg hne]
    exact ih current.dropLast (by rw [List.length_dropLast, hlen]; rfl) _ dp
      (keysOf_aggregate_nodup _ _ _ (keysOf_ensure_nodup ds current.dropLast h))

theorem foldProp_keys_nodup :
    ∀ (L : List Dir) (ds : DirStats), (keysOf ds).Nodup →
      (keysOf (L.foldl propagate_stats_to_parents ds)).Nodup := by
  intro L
  induction L with
  | nil => intro ds h; exact h
  | cons c L ih =>
    intro ds h
    rw [List.foldl_cons]
    exact ih _ (propagateLoop_keys_nodup c.length c rfl ds c h)

theorem rollup_keys_nodup (reports : List FileReport) (mti : List String) :
    (keysOf (aggregate_directory_tree_upward
      (build_directory_tree_structure reports mti))).Nodup := by
  unfold aggregate_directory_tree_upward
  rw [keysOf_finalize]
  apply foldProp_keys_nodup
  unfold build_directory_tree_structure
  exact build_fold_keys_nodup mti reports [] (by simp [keysOf])

theorem dsFind_of_mem_nodup :
    ∀ (ds : DirStats), (keysOf ds).Nodup → ∀ (d : Dir) (data : DirData),
      (d, data) ∈ ds → dsFind ds d = some data := by
  intro ds
  induction ds with
  | nil => intro _ d data h; simp at h
  | cons e es ih =>
    intro hnd d data hmem
    rw [show keysOf (e :: es) = e.1 :: keysOf es from rfl] at hnd
    have hnm : e.1 ∉ keysOf es := (List.nodup_cons.mp hnd).1
    have hnd' : (keysOf es).Nodup := (List.nodup_cons.mp hnd).2
    rcases List.mem_cons.mp hmem with he | hm
    · rw [← he]
      rw [show dsFind ((d, data) :: es) d = some data from by
        rw [dsFind, if_pos rfl]]
    · by_cases hed : e.1 = d
      · exfalso
        apply hnm
        rw [hed]
        exact List.mem_map_of_mem Prod.fst hm
      · rw [show dsFind (e :: es) d = dsFind es d from by
          rw [dsFind, if_neg hed]]
        exact ih hnd' d data hm

theorem mem_of_dsFind :
    ∀ (ds : DirStats) (d : Dir) (data : DirData),
      dsFind ds d = some data → (d, data) ∈ ds := by
  intro ds
  induction ds with
  | nil => intro d data h; simp [dsFind] at h
  | cons e es ih =>
    intro d data h
    by_cases hed : e.1 = d
    · rw [show dsFind (e :: es) d = some e.2 from by
        rw [dsFind, if_pos hed]] at h
      injection h with h
      have : (d, data) = e := by
        rw [← hed, ← h]
      rw [this]
      exact List.mem_cons_self e es
    · rw [show dsFind (e :: es) d = dsFind es d from by
        rw [dsFind, if_neg hed]] at h
      exact List.mem_cons_of_mem e (ih d data h)

theorem calc_dir_eq {d base rel : Dir} {dep : Nat}
    (h : calculate_relative_depth d base = some (rel, dep)) : d = base ++ rel := by
  unfold calculate_relative_depth at h
  by_cases hc : isUnder base d = true ∧ d ≠ base
  · rw [if_pos hc] at h
    injection h with h
    have h1 : rel = d.drop base.length := (Prod.mk.injEq _ _ _ _ |>.mp h).1.symm
    have h2 := (isUnder_iff_take base d).mp hc.1
    have h3 := List.take_append_drop base.length d
    rw [h2] at h3
    rw [h1]
    exact h3.symm
  · rw [if_neg hc] at h
    exact Option.noConfusion h

theorem allOf_ne_nil_find (ds : DirStats) (d : Dir) (h : allOf ds d ≠ []) :
    ∃ data, dsFind ds d = some data ∧ data.all_files = allOf ds d := by
  cases hf : dsFind ds d with
  | none =>
    exfalso
    apply h
    unfold allOf dsGet
    rw [hf]
    exact rfl
  | some data =>
    refine ⟨data, rfl, ?_⟩
    unfold allOf dsGet
    rw [hf]
    exact rfl

theorem mem_build_results (ds : DirStats) (mti : List String) (base : Dir)
    (eff : Nat) (style : String) (rel : Dir) (entry : ResultEntry) :
    ((rel, entry) ∈ build_directory_results ds mti base eff style) ↔
      ∃ e ∈ ds, should_include_directory e.2 e.1 base eff = true ∧
        (∃ dep', calculate_relative_depth e.1 base = some (rel, dep')) ∧
        entry = build_result_entry e.2 mti := by
  unfold build_directory_results
  rw [List.mem_filterMap]
  constructor
  · rintro ⟨e, he, hf⟩
    by_cases hinc : should_include_directory e.2 e.1 base eff = true
    · rw [if_pos hinc] at hf
      cases hc : calculate_relative_depth e.1 base with
      | none => rw [hc] at hf; exact Option.noConfusion hf
      | some p =>
        obtain ⟨rel', dep'⟩ := p
        rw [hc] at hf
        have hf' : (create_display_path rel' style, build_result_entry e.2 mti)
            = (rel, entry) := by
          injection hf with hf'
        have hrel : rel' = rel := (Prod.mk.injEq _ _ _ _ |>.mp hf').1
        have hent : entry = build_result_entry e.2 mti :=
          ((Prod.mk.injEq _ _ _ _ |>.mp hf').2).symm
        exact ⟨e, he, hinc, ⟨dep', by rw [hc, hrel]⟩, hent⟩
    · rw [if_neg hinc] at hf
      exact Option.noConfusion hf
  · rintro ⟨e, he, hinc, ⟨dep', hc⟩, hentry⟩
    refine ⟨e, he, ?_⟩
    rw [if_pos hinc, hc, hentry]
    rfl

/-- C2: rollup conservation — after the upward aggregation, every
directory's de-duplicated aggregated file set is a permutation of the
distinct input reports lying anywhere in its subtree: each such file appears
exactly once, none is dropped, and the reported file count equals the number
of distinct subtree files (in particular for depth-0 directories). -/
theorem rollup_conservation (reports : List FileReport) (mti : List String)
    (d : Dir) (h : (reports.map (fun r => r.rid)).Nodup) :
    (remove_duplicate_files (allOf (aggregate_directory_tree_upward
        (build_directory_tree_structure reports mti)) d)).Perm
      (reports.filter (fun r => isUnder d r.file_path.dir))
    ∧ (remove_duplicate_files (allOf (aggregate_directory_tree_upward
        (build_directory_tree_structure reports mti)) d)).length =
      (reports.filter (fun r => isUnder d r.file_path.dir)).length := by
  have hperm : (allOf (aggregate_directory_tree_upward
      (build_directory_tree_structure reports mti)) d).Perm
      (reports.filter (fun r => isUnder d r.file_path.dir)) :=
    List.perm_iff_count.mpr (fun x => allOf_rollup_count reports mti d x)
  have hfilnd : ((reports.filter (fun r => isUnder d r.file_path.dir)).map
      (fun r => r.rid)).Nodup :=
    ((List.filter_sublist reports).map (fun r => r.rid)).nodup h
  have hallnd : ((allOf (aggregate_directory_tree_upward
      (build_directory_tree_structure reports mti)) d).map
        (fun r => r.rid)).Nodup :=
    ((hperm.map (fun r => r.rid)).nodup_iff).mpr hfilnd
  rw [remove_duplicate_files_eq_self _ hallnd]
  exact ⟨hperm, hperm.length_eq⟩

/-- C2 (witness): two distinct reports in directory `a`; the root's
de-duplicated aggregated set is exactly those two files. -/
theorem rollup_conservation_witness :
    (remove_duplicate_files (allOf (aggregate_directory_tree_upward
        (build_directory_tree_structure [rBug1, rBug2]
          ["cyclomatic_complexity"])) [])).Perm
      ([rBug1, rBug2].filter (fun r => isUnder [] r.file_path.dir))
    ∧ (remove_duplicate_files (allOf (aggregate_directory_tree_upward
        (build_directory_tree_structure [rBug1, rBug2]
          ["cyclomatic_complexity"])) [])).length =
      ([rBug1, rBug2].filter (fun r => isUnder [] r.file_path.dir)).length :=
  rollup_conservation [rBug1, rBug2] ["cyclomatic_complexity"] [] (by decide)

/-- C5: depth truncation — a directory under the base appears in the rollup
result map exactly when its aggregated file set is non-empty and its
relative depth is strictly below the requested depth, where `depth = 0`
means unlimited but is capped at the safety depth 20 (so `depth = 1` keeps
exactly the depth-0, top-level directories, and `depth = 0` keeps every
non-empty directory of depth below 20). -/
theorem depth_truncation (reports : List FileReport) (mti : List String)
    (base : Dir) (depth : Nat) (style : String) (d rel : Dir) (dep : Nat)
    (hcalc : calculate_relative_depth d base = some (rel, dep)) :
    (∃ entry, (rel, entry) ∈ collect_directory_stats reports mti base depth style) ↔
      (allOf (aggregate_directory_tree_upward
          (build_directory_tree_structure reports mti)) d ≠ []
        ∧ dep < (if depth = 0 then 20 else depth)) := by
  have hd_eq : d = base ++ rel := calc_dir_eq hcalc
  by_cases hrep : reports = []
  · subst hrep
    have hcol : collect_directory_stats [] mti base depth style = [] := by
      unfold collect_directory_stats
      rw [if_pos rfl]
    have hall : allOf (aggregate_directory_tree_upward
        (build_directory_tree_structure [] mti)) d = [] := by
      show allOf (aggregate_directory_tree_upward []) d = []
      unfold aggregate_directory_tree_upward
      rw [show (([] : DirStats).map Prod.fst) = ([] : List Dir) from rfl,
        List.mergeSort_nil]
      rfl
    rw [hcol, hall]
    simp
  · have hcol : collect_directory_stats reports mti base depth style =
        build_directory_results
          (aggregate_directory_tree_upward
            (build_directory_tree_structure reports mti))
          mti base (if depth = 0 then 20 else depth) style := by
      unfold collect_directory_stats
      rw [if_neg hrep]
      rfl
    rw [hcol]
    have hnodup := rollup_keys_nodup reports mti
    constructor
    · rintro ⟨entry, hmem⟩
      rw [mem_build_results] at hmem
      obtain ⟨⟨d1, data1⟩, he, hinc, ⟨dep', hc⟩, _⟩ := hmem
      have he1 : d1 = d := by
        have h1 : (d1, data1).1 = base ++ rel := calc_dir_eq hc
        rw [← hd_eq] at h1
        exact h1
      subst he1
      have hfind : dsFind (aggregate_directory_tree_upward
          (build_directory_tree_structure reports mti)) d1 = some data1 :=
        dsFind_of_mem_nodup _ hnodup d1 data1 he
      have hallq : allOf (aggregate_directory_tree_upward
          (build_directory_tree_structure reports mti)) d1 = data1.all_files := by
        unfold allOf dsGet
        rw [hfind]
        exact rfl
      unfold should_include_directory at hinc
      by_cases hemp : data1.all_files = []
      · rw [if_pos (show ((d1, data1).2.all_files = []) from hemp)] at hinc
        exact Bool.noConfusion hinc
      · rw [if_neg (show ¬ ((d1, data1).2.all_files = []) from hemp)] at hinc
        rw [show ((d1, data1).1 : Dir) = d1 from rfl, hcalc] at hinc
        refine ⟨by rw [hallq]; exact hemp, of_decide_eq_true hinc⟩
    · rintro ⟨hne, hdep⟩
      obtain ⟨data, hfind, hdata⟩ := allOf_ne_nil_find _ d hne
      refine ⟨build_result_entry data mti, ?_⟩
      rw [mem_build_results]
      refine ⟨(d, data), mem_of_dsFind _ d data hfind, ?_, ⟨dep, hcalc⟩, rfl⟩
      unfold should_include_directory
      rw [if_neg (show ¬ (((d, data) : Dir × DirData).2.all_files = []) from by
        rw [show ((d, data) : Dir × DirData).2 = data from rfl, hdata]
        exact hne)]
      rw [show (((d, data) : Dir × DirData).1 : Dir) = d from rfl, hcalc]
      exact decide_eq_true hdep

/-- C5 (witness): one report in directory `a`, base the root, `depth = 1`:
directory `a` (relative depth 0) appears exactly when its aggregated set is
non-empty and `0 < 1`. -/
theorem depth_truncation_witness :
    (∃ entry, ((["a"] : Dir), entry) ∈
        collect_directory_stats [rBug1] ["cyclomatic_complexity"] [] 1 "relative") ↔
      (allOf (aggregate_directory_tree_upward
          (build_directory_tree_structure [rBug1] ["cyclomatic_complexity"]))
          ["a"] ≠ []
        ∧ 0 < (if (1 : Nat) = 0 then 20 else 1)) :=
  depth_truncation [rBug1] ["cyclomatic_complexity"] [] 1 "relative" ["a"] ["a"] 0
    (by decide)

/-- C6 (code evaluation at the failing input): a directory whose aggregated
list holds report `rBug1` twice (as via two propagation paths) and `rBug2`
once stores `avg_cyclomatic_complexity = 2` — the code averages
`values[: len(unique_files)] = [2, 2]` — while averaging each de-duplicated
report once gives 3. -/
theorem metric_average_truncation_eval :
    build_directory_results dsBug ["cyclomatic_complexity"] [] 20 "relative" =
      [((["a"] : Dir),
        { file_count := 2, function_count := 0,
          avgs := [("avg_cyclomatic_complexity", 2)] })]
    ∧ mean ((remove_duplicate_files
        ((dsGet dsBug ["a"]).all_files)).map
          (fun r => (r.metrics.map (fun mt => mt.value)).sum)) = 3
    ∧ ((2 : Rat) ≠ 3) := by
  refine ⟨?_, ?_, by norm_num⟩
  · have h1 : remove_duplicate_files datumBug.all_files = [rBug1, rBug2] := by
      decide
    unfold build_directory_results dsBug
    simp only [List.filterMap]
    rw [show should_include_directory datumBug ["a"] [] 20 = true from by decide]
    rw [show calculate_relative_depth ["a"] [] = some ((["a"] : Dir), 0) from by
      decide]
    unfold build_result_entry
    rw [h1]
    rw [show should_collect_loc_metrics ["cyclomatic_complexity"] = false from by
      decide]
    unfold build_base_directory_result add_metric_statistics_to_result
    simp only [datumBug, List.foldl]
    norm_num [mean, create_display_path]
    rw [if_neg (show ¬ (([2, 2, 4] : List Rat) = []) from by simp)]
    rfl
  · rw [show remove_duplicate_files ((dsGet dsBug ["a"]).all_files)
        = [rBug1, rBug2] from by decide]
    norm_num [mean, rBug1, rBug2]

/-- C7 (witness): `m1/m2/m3/f.py` with markers in `m1`, `m1/m2`, `m1/m2/m3`
is grouped under the dotted path of exactly those marker directories. -/
theorem module_rollup_witness :
    determine_module_name hasInitX rMod =
      (if rMod.file_path.dir.drop 0 = [] then "<root>"
       else String.intercalate "." (rMod.file_path.dir.drop 0)) :=
  module_rollup.1 hasInitX rMod 0 (by decide)
    (by
      intro mIdx h1 h2
      have h3 : rMod.file_path.dir.length = 3 := by decide
      have hm : mIdx = 1 ∨ mIdx = 2 ∨ mIdx = 3 := by omega
      rcases hm with h | h | h <;> subst h <;> decide)
    (Or.inl rfl)

end Antipasta
